import Mathlib

/-!
Verification of the `blockquery` query-and-compare engine of Azure/tflint-helper.

The Go code queried here (src/blockquery/query.go and
src/blockquery/compareResult.go) operates on `cty.Value` from
github.com/zclconf/go-cty.  We shallow-embed the fragment of cty that the
code exercises:

* `CtyType` / `CtyValue` mirror cty types and values for the kinds the code
  touches (bool, number, string, list, object, map).  cty numbers are
  arbitrary-precision floats; this embedding restricts them to integers,
  which is the only territory any claim exercises (`fmtCty` renders integral
  numbers with `%d`, the conversion examples are integral).  Object
  attribute lists are kept in one canonical order; cty object types are
  unordered maps whose equality is order-insensitive, so values are taken
  canonically ordered here and type equality is positional.
* Go runtime panics (cty's `ListVal` on an empty slice, `AttributeTypes` on
  a non-object type, `GetAttr` on a null object, `LengthInt` on an
  unknown/null collection, negative slice index, `Value.True` on an unknown
  bool, `AsString`/`AsBigFloat`/`True` on null/unknown scalars) abort the
  surrounding Go call.  They are modelled explicitly: the query evaluator
  returns `Except QErr _` with a dedicated `QErr.panics` constructor, and
  the comparison library returns `GoRes _` whose `GoRes.panics` constructor
  plays the same role.  Nothing in the Go code recovers from a panic, so
  propagating the marker outward is a faithful model.
-/

/-- cty types, restricted to the kinds reachable from the blockquery code. -/
inductive CtyType where
  | bool : CtyType
  | number : CtyType
  | string : CtyType
  | list (elem : CtyType) : CtyType
  | object (attrs : List (String × CtyType)) : CtyType
  | map (elem : CtyType) : CtyType

/-- cty values.  `nullV ty` is `cty.NullVal(ty)`, `unknown ty` is
`cty.UnknownVal(ty)`.  `listV elem elems` carries the declared element type
exactly as a cty list value does.  Numbers are restricted to integers (see
the module comment). -/
inductive CtyValue where
  | nullV (ty : CtyType) : CtyValue
  | unknown (ty : CtyType) : CtyValue
  | boolV (b : Bool) : CtyValue
  | number (n : Int) : CtyValue
  | stringV (s : String) : CtyValue
  | listV (elem : CtyType) (elems : List CtyValue) : CtyValue
  | object (attrs : List (String × CtyValue)) : CtyValue
  | mapV (elem : CtyType) (entries : List (String × CtyValue)) : CtyValue

mutual

/-- Boolean equality of cty types (`cty.Type.Equals`); object attribute
lists are compared positionally, which agrees with cty's unordered
comparison on the canonical ordering used throughout this embedding. -/
def tyBEq : CtyType → CtyType → Bool
  | .bool, .bool => true
  | .number, .number => true
  | .string, .string => true
  | .list a, .list b => tyBEq a b
  | .object xs, .object ys => tyAttrsBEq xs ys
  | .map a, .map b => tyBEq a b
  | _, _ => false

/-- Pointwise `tyBEq` on attribute lists. -/
def tyAttrsBEq : List (String × CtyType) → List (String × CtyType) → Bool
  | [], [] => true
  | (k, t) :: xs, (k', t') :: ys => k == k' && tyBEq t t' && tyAttrsBEq xs ys
  | _, _ => false

end

mutual

theorem tyBEq_iff : (a b : CtyType) → (tyBEq a b = true ↔ a = b)
  | .bool, .bool => by simp [tyBEq]
  | .number, .number => by simp [tyBEq]
  | .string, .string => by simp [tyBEq]
  | .list a, .list b => by
    have h := tyBEq_iff a b
    simp [tyBEq, h]
  | .object xs, .object ys => by
    have h := tyAttrsBEq_iff xs ys
    simp [tyBEq, h]
  | .map a, .map b => by
    have h := tyBEq_iff a b
    simp [tyBEq, h]
  | .bool, .number | .bool, .string | .bool, .list _ | .bool, .object _
  | .bool, .map _ | .number, .bool | .number, .string | .number, .list _
  | .number, .object _ | .number, .map _ | .string, .bool | .string, .number
  | .string, .list _ | .string, .object _ | .string, .map _ | .list _, .bool
  | .list _, .number | .list _, .string | .list _, .object _ | .list _, .map _
  | .object _, .bool | .object _, .number | .object _, .string
  | .object _, .list _ | .object _, .map _ | .map _, .bool | .map _, .number
  | .map _, .string | .map _, .list _ | .map _, .object _ => by simp [tyBEq]

theorem tyAttrsBEq_iff :
    (xs ys : List (String × CtyType)) → (tyAttrsBEq xs ys = true ↔ xs = ys)
  | [], [] => by simp [tyAttrsBEq]
  | [], _ :: _ => by simp [tyAttrsBEq]
  | _ :: _, [] => by simp [tyAttrsBEq]
  | (k, t) :: xs, (k', t') :: ys => by
    have h1 := tyBEq_iff t t'
    have h2 := tyAttrsBEq_iff xs ys
    simp [tyAttrsBEq, h1, h2, and_assoc]

end

instance : DecidableEq CtyType := fun a b =>
  decidable_of_iff (tyBEq a b = true) (tyBEq_iff a b)

/-- Association-list lookup, modelling Go map indexing `attrs[segment]`
on the deterministic canonical ordering used by this embedding. -/
def lookupAttr {α : Type} : List (String × α) → String → Option α
  | [], _ => none
  | (k, v) :: rest, name => if k = name then some v else lookupAttr rest name

mutual

/-- `cty.Value.Type()`: the type of a value.  For null/unknown values the
carried type is returned; for concrete composites it is derived from the
payload (cty stores it alongside, which coincides). -/
def typeOf : CtyValue → CtyType
  | .nullV ty => ty
  | .unknown ty => ty
  | .boolV _ => .bool
  | .number _ => .number
  | .stringV _ => .string
  | .listV ty _ => .list ty
  | .object attrs => .object (attrsTypes attrs)
  | .mapV ty _ => .map ty

/-- Types of an attribute list, pointwise `typeOf`. -/
def attrsTypes : List (String × CtyValue) → List (String × CtyType)
  | [] => []
  | (k, v) :: rest => (k, typeOf v) :: attrsTypes rest

end

/-- `cty.Type.IsObjectType()`. -/
def isObjectType : CtyType → Bool
  | .object _ => true
  | _ => false

/-- `cty.Type.IsMapType()`. -/
def isMapType : CtyType → Bool
  | .map _ => true
  | _ => false

/-- `cty.Type.IsListType()`. -/
def isListType : CtyType → Bool
  | .list _ => true
  | _ => false

/-- `cty.Type.AttributeTypes()`: attribute types of an object type; cty
panics on any other type (`none` here, turned into a panic marker at the
call site). -/
def attributeTypes : CtyType → Option (List (String × CtyType))
  | .object atys => some atys
  | _ => none

/-- `cty.Value.IsKnown()` (shallow, exactly as in cty: a known list may
still contain unknown elements). -/
def isKnownV : CtyValue → Bool
  | .unknown _ => false
  | _ => true

/-- `cty.Value.IsNull()`. -/
def isNullV : CtyValue → Bool
  | .nullV _ => true
  | _ => false

/-- `strings.Cut(query, ".")` restricted to the two components the code
keeps: the part before the first `'.'` and the part after it (empty when no
dot occurs, matching Go, whose `found` flag the code discards). -/
def cutDot : List Char → List Char × List Char
  | [] => ([], [])
  | c :: rest =>
    if c = '.' then ([], rest)
    else
      let p := cutDot rest
      (c :: p.1, p.2)

theorem cutDot_snd_lt (q : List Char) (h : q ≠ []) :
    (cutDot q).2.length < q.length := by
  induction q with
  | nil => exact absurd rfl h
  | cons c rest ih =>
    by_cases hc : c = '.'
    · simp [cutDot, hc]
    · cases rest with
      | nil => simp [cutDot, hc]
      | cons d rest' =>
        have := ih (by simp)
        simp only [cutDot, if_neg hc]
        exact Nat.lt_trans this (by simp)

/-- `nextQuerySegment` from query.go: splits a query string into the first
segment and the remaining part. -/
def nextQuerySegment (query : List Char) : List Char × List Char :=
  cutDot query

theorem nqs_snd_lt_of_ne {query : List Char}
    (hr : (nextQuerySegment query).2 ≠ []) :
    (nextQuerySegment query).2.length < query.length := by
  rcases Decidable.em (query = []) with hq | hq
  · subst hq
    simp [nextQuerySegment, cutDot] at hr
  · exact cutDot_snd_lt query hq

/-- Decimal digit test used by the `strconv.Atoi` model. -/
def isDigitB (c : Char) : Bool := '0' ≤ c && c ≤ '9'

/-- Numeric value of a digit string. -/
def digitsVal (cs : List Char) : Nat :=
  cs.foldl (fun a c => a * 10 + (c.toNat - 48)) 0

/-- `strconv.Atoi`: optional single sign, then at least one ASCII decimal
digit, result within the int64 range (out-of-range input yields
`ErrRange`, i.e. a non-nil error, hence `none` here). -/
def goAtoi (s : List Char) : Option Int :=
  let signDigits : Int × List Char :=
    match s with
    | c :: rest =>
      if c = '+' then (1, rest) else if c = '-' then (-1, rest) else (1, s)
    | [] => (1, s)
  if signDigits.2 = [] then none
  else if signDigits.2.all isDigitB then
    let v : Int := signDigits.1 * (digitsVal signDigits.2 : Int)
    if -(2 ^ 63) ≤ v ∧ v ≤ 2 ^ 63 - 1 then some v else none
  else none

/-- `querySegmentPertainsToList` from query.go: `#` means wildcard (−1);
otherwise anything `strconv.Atoi` accepts is a list operation with that
index; everything else is not a list operation. -/
def querySegmentPertainsToList (segment : List Char) : Int × Bool :=
  if segment = ['#'] then (-1, true)
  else
    match goAtoi segment with
    | none => (0, false)
    | some i => (i, true)

theorem nqs_snd_lt_of_pertains {query : List Char}
    (hp : (querySegmentPertainsToList (nextQuerySegment query).1).2 = true) :
    (nextQuerySegment query).2.length < query.length := by
  rcases Decidable.em (query = []) with hq | hq
  · subst hq
    simp [nextQuerySegment, cutDot, querySegmentPertainsToList, goAtoi] at hp
  · exact cutDot_snd_lt query hq

/-- Errors (and modelled panics) produced by `QueryCty`/`queryList`. -/
inductive QErr where
  | notObjectOrMap : QErr
  | attrNotFound (query : List Char) : QErr
  | notList (segment : List Char) : QErr
  | indexOOB (i : Int) (len : Nat) : QErr
  | panics (msg : String) : QErr
deriving DecidableEq, Repr

/-- `cty.Value.GetAttr(name)` as invoked by query.go, i.e. after the caller
established that the value's type is an object type containing `name`:
unknown objects yield an unknown of the attribute's type, concrete objects
yield the attribute's value, and a null object panics (cty type-asserts the
nil payload to a map). -/
def getAttrGo (val : CtyValue) (name : String) : Except QErr CtyValue :=
  match val with
  | .unknown (.object atys) =>
    match lookupAttr atys name with
    | some t => .ok (.unknown t)
    | none => .error (.panics "value has no attribute of that name")
  | .object attrs =>
    match lookupAttr attrs name with
    | some u => .ok u
    | none => .error (.panics "value has no attribute of that name")
  | .nullV _ => .error (.panics "GetAttr on a null object value")
  | _ => .error (.panics "value is not an object")

/-- `cty.ListVal` as invoked by `queryList`: panics on an empty slice, and
panics when the element types are inconsistent; otherwise builds a list
value whose element type is the first element's type. -/
def listValQ (vals : List CtyValue) : Except QErr CtyValue :=
  match vals with
  | [] => .error (.panics "must not call ListVal with empty slice")
  | v :: rest =>
    if rest.all (fun w => tyBEq (typeOf w) (typeOf v)) then
      .ok (.listV (typeOf v) vals)
    else .error (.panics "inconsistent list element types")

mutual

/-- `QueryCty` from query.go, on the query as a character list.  Structure
follows the source line by line: split off one segment; list operations go
to `queryList`; otherwise the value must be an object or map (else error);
`AttributeTypes` (panicking for a map type) is consulted for the segment;
an absent attribute is an error mentioning the whole current query; an
exhausted remainder returns `GetAttr`, otherwise recurse into it. -/
def QueryCty (val : CtyValue) (query : List Char) : Except QErr CtyValue :=
  if hp : (querySegmentPertainsToList (nextQuerySegment query).1).2 = true then
    queryList val (querySegmentPertainsToList (nextQuerySegment query).1).1
      (nextQuerySegment query).1 (nextQuerySegment query).2
  else
    if ¬(isObjectType (typeOf val) = true ∨ isMapType (typeOf val) = true) then
      .error .notObjectOrMap
    else
      match attributeTypes (typeOf val) with
      | none => .error (.panics "AttributeTypes on non-object Type")
      | some atys =>
        match lookupAttr atys (String.mk (nextQuerySegment query).1) with
        | none => .error (.attrNotFound query)
        | some _ =>
          if hr : (nextQuerySegment query).2 = [] then
            getAttrGo val (String.mk (nextQuerySegment query).1)
          else
            match getAttrGo val (String.mk (nextQuerySegment query).1) with
            | .error e => .error e
            | .ok v' => QueryCty v' (nextQuerySegment query).2
termination_by (4 * query.length, 0)
decreasing_by
  all_goals simp_wf
  · apply Prod.Lex.left
    have := nqs_snd_lt_of_pertains hp
    omega
  · apply Prod.Lex.left
    have := nqs_snd_lt_of_ne hr
    omega

/-- `queryList` from query.go.  A non-list type is an error.  A list-typed
value that is null or unknown panics at `LengthInt`.  Index −1 is the hash
wildcard: map the remaining query over the elements (an element's failure
aborts the whole loop) and rebuild with `cty.ListVal`.  Other indices are
bounds-checked against the length only from above; a negative index then
panics inside `cty.Value.Index` (Go slice indexing). -/
def queryList (val : CtyValue) (i : Int) (segment remaining : List Char) :
    Except QErr CtyValue :=
  if ¬(isListType (typeOf val) = true) then .error (.notList segment)
  else
    match val with
    | .listV _ elems =>
      if i = -1 then
        match wildcardLoop elems remaining with
        | .error e => .error e
        | .ok results => listValQ results
      else if (elems.length : Int) ≤ i then .error (.indexOOB i elems.length)
      else if i < 0 then .error (.panics "index out of range")
      else
        match elems.get? i.toNat with
        | none => .error (.panics "index out of range")
        | some next =>
          if hr : remaining = [] then .ok next
          else QueryCty next remaining
    | _ => .error (.panics "LengthInt on an unknown or null collection")
termination_by (4 * remaining.length + 3, 0)
decreasing_by
  all_goals simp_wf
  · apply Prod.Lex.left
    omega
  · apply Prod.Lex.left
    omega

/-- The element loop of `queryList`'s wildcard branch: an empty remainder
keeps each element unchanged; otherwise each element is queried with the
remainder and the first error aborts the loop. -/
def wildcardLoop (elems : List CtyValue) (remaining : List Char) :
    Except QErr (List CtyValue) :=
  match elems with
  | [] => .ok []
  | v :: rest =>
    if hr : remaining = [] then
      match wildcardLoop rest remaining with
      | .error e => .error e
      | .ok qs => .ok (v :: qs)
    else
      match QueryCty v remaining with
      | .error e => .error e
      | .ok q =>
        match wildcardLoop rest remaining with
        | .error e => .error e
        | .ok qs => .ok (q :: qs)
termination_by (4 * remaining.length + 2, elems.length)
decreasing_by
  all_goals simp_wf
  · apply Prod.Lex.right
    omega
  · apply Prod.Lex.left
    omega
  · apply Prod.Lex.right
    omega

end

/-- `QueryCty` on a Lean string, the shape the Go API exposes. -/
def QueryCtyS (val : CtyValue) (query : String) : Except QErr CtyValue :=
  QueryCty val query.toList

/-- Outcome of a Go function that can also abort with a runtime panic. -/
inductive GoRes (α : Type) where
  | ok (val : α) : GoRes α
  | panics (msg : String) : GoRes α

mutual

/-- `cty.Value.Equals` (receiver first).  `none` models the Unknown bool
result cty produces when either side (or a compared position inside a
composite) is unknown; `.True()` on that result panics.  Types are
compared first: different types are `False` regardless of content; then
nulls are equal only to nulls; composites compare recursively, stopping at
the first unknown comparison (Unknown result) or first inequality
(False), in element order. -/
def ctyEq (a b : CtyValue) : Option Bool :=
  if isKnownV a = false || isKnownV b = false then none
  else if ¬(tyBEq (typeOf a) (typeOf b) = true) then some false
  else if isNullV a || isNullV b then some (isNullV a && isNullV b)
  else
    match a, b with
    | .boolV x, .boolV y => some (x == y)
    | .number x, .number y => some (x == y)
    | .stringV x, .stringV y => some (x == y)
    | .listV _ xs, .listV _ ys =>
      if xs.length = ys.length then ctyEqList xs ys else some false
    | .object xs, .object ys => ctyEqAttrs xs ys
    | .mapV _ xs, .mapV _ ys =>
      if xs.length = ys.length then ctyEqMap xs ys else some false
    | _, _ => some false

/-- Elementwise `ctyEq` with cty's stopping behaviour. -/
def ctyEqList : List CtyValue → List CtyValue → Option Bool
  | [], [] => some true
  | x :: xs, y :: ys =>
    match ctyEq x y with
    | none => none
    | some false => some false
    | some true => ctyEqList xs ys
  | _, _ => some false

/-- Attributewise `ctyEq`; attribute names align positionally because the
types were already found equal. -/
def ctyEqAttrs : List (String × CtyValue) → List (String × CtyValue) → Option Bool
  | [], [] => some true
  | (_, x) :: xs, (_, y) :: ys =>
    match ctyEq x y with
    | none => none
    | some false => some false
    | some true => ctyEqAttrs xs ys
  | _, _ => some false

/-- Keywise `ctyEq` for maps: every key of the left operand must occur in
the right one (lengths were already found equal). -/
def ctyEqMap : List (String × CtyValue) → List (String × CtyValue) → Option Bool
  | [], _ => some true
  | (k, x) :: xs, ys =>
    match lookupAttr ys k with
    | none => some false
    | some y =>
      match ctyEq x y with
      | none => none
      | some false => some false
      | some true => ctyEqMap xs ys

end

mutual

/-- No `Unknown` anywhere inside the value (stronger than cty's shallow
`IsKnown`). -/
def deepKnown : CtyValue → Bool
  | .unknown _ => false
  | .nullV _ => true
  | .boolV _ => true
  | .number _ => true
  | .stringV _ => true
  | .listV _ xs => deepKnownList xs
  | .object xs => deepKnownAttrs xs
  | .mapV _ xs => deepKnownAttrs xs

/-- `deepKnown` on every element. -/
def deepKnownList : List CtyValue → Bool
  | [] => true
  | x :: xs => deepKnown x && deepKnownList xs

/-- `deepKnown` on every attribute value. -/
def deepKnownAttrs : List (String × CtyValue) → Bool
  | [] => true
  | (_, x) :: xs => deepKnown x && deepKnownAttrs xs

end

/-- `cty.ParseNumberVal` restricted to this embedding's integral numbers:
an optional sign followed by decimal digits (arbitrary precision — cty
parses into a big float, so there is no range limit here). -/
def goParseNumber (s : String) : Option Int :=
  let signDigits : Int × List Char :=
    match s.toList with
    | c :: rest =>
      if c = '+' then (1, rest)
      else if c = '-' then (-1, rest)
      else (1, s.toList)
    | [] => (1, s.toList)
  if signDigits.2 = [] then none
  else if signDigits.2.all isDigitB then
    some (signDigits.1 * (digitsVal signDigits.2 : Nat))
  else none

/-- Whether `convert.GetConversionUnsafe` has a conversion between the two
types, for the kinds this embedding models: number→string and bool→string
(safe), string→number and string→bool (unsafe, may still fail on the
value), and elementwise list→list.  Conversions whose source or target is
an object or map type (other than the identity handled before this is
consulted) are not modelled — no claim exercises them. -/
def convOk : CtyType → CtyType → Bool
  | .number, .string => true
  | .bool, .string => true
  | .string, .number => true
  | .string, .bool => true
  | .list a, .list b => tyBEq a b || convOk a b
  | _, _ => false

mutual

/-- `convert.Convert(v, want)`: identity on an exact type match, otherwise
apply the unsafe conversion if one exists (null and unknown inputs convert
to null/unknown of the target type; known scalars convert by
rendering/parsing; lists convert elementwise), else error. -/
def convertV (v : CtyValue) (want : CtyType) : Except Unit CtyValue :=
  if tyBEq (typeOf v) want then .ok v
  else if ¬(convOk (typeOf v) want = true) then .error ()
  else
    match v, want with
    | .nullV _, _ => .ok (.nullV want)
    | .unknown _, _ => .ok (.unknown want)
    | .number n, .string => .ok (.stringV (toString n))
    | .boolV b, .string => .ok (.stringV (if b then "true" else "false"))
    | .stringV s, .number =>
      match goParseNumber s with
      | some n => .ok (.number n)
      | none => .error ()
    | .stringV s, .bool =>
      if s = "true" then .ok (.boolV true)
      else if s = "false" then .ok (.boolV false)
      else .error ()
    | .listV _ xs, .list b =>
      match convertVList xs b with
      | .ok ys => .ok (.listV b ys)
      | .error e => .error e
    | _, _ => .error ()

/-- Elementwise conversion of a list payload. -/
def convertVList (xs : List CtyValue) (b : CtyType) :
    Except Unit (List CtyValue) :=
  match xs with
  | [] => .ok []
  | x :: rest =>
    match convertV x b with
    | .error e => .error e
    | .ok y =>
      match convertVList rest b with
      | .error e => .error e
      | .ok ys => .ok (y :: ys)

end

/-- The loop body of `compareResults`: try each expected value in turn;
a failed conversion silently skips to the next candidate; a successful
conversion compares with `Equals(..).True()`, whose unknown result
panics. -/
def compareLoop (got : CtyValue) : List CtyValue → GoRes Bool
  | [] => .ok false
  | w :: rest =>
    match convertV got (typeOf w) with
    | .error _ => compareLoop got rest
    | .ok cnv =>
      match ctyEq w cnv with
      | none => .panics "True on an unknown bool value"
      | some true => .ok true
      | some false => compareLoop got rest

/-- `compareResults` from compareResult.go: an unknown or null actual
value never matches; otherwise try the candidates. -/
def compareResults (got : CtyValue) (want : List CtyValue) : GoRes Bool :=
  if isKnownV got = false || isNullV got = true then .ok false
  else compareLoop got want

/-- `allTrue` from compareResult.go. -/
def allTrue : List Bool → Bool
  | [] => true
  | b :: rest => if !b then false else allTrue rest

/-- Simplified rendering of `cty.Type.GoString`, used by `goString`. -/
def tyGoString : CtyType → String
  | .bool => "cty.Bool"
  | .number => "cty.Number"
  | .string => "cty.String"
  | .list t => "cty.List(" ++ tyGoString t ++ ")"
  | .object _ => "cty.Object(...)"
  | .map t => "cty.Map(" ++ tyGoString t ++ ")"

mutual

/-- Simplified rendering of `cty.Value.GoString` (reached by `fmtCty` only
for object- and map-kind values, including null/unknown ones).  The exact
text is never asserted by any theorem; only its totality matters. -/
def goString : CtyValue → String
  | .nullV ty => "cty.NullVal(" ++ tyGoString ty ++ ")"
  | .unknown ty => "cty.UnknownVal(" ++ tyGoString ty ++ ")"
  | .boolV b => if b then "cty.True" else "cty.False"
  | .number n => "cty.NumberIntVal(" ++ toString n ++ ")"
  | .stringV s => "cty.StringVal(" ++ s ++ ")"
  | .listV _ xs => "cty.ListVal(" ++ goStringList xs ++ ")"
  | .object xs => "cty.ObjectVal(" ++ goStringAttrs xs ++ ")"
  | .mapV _ xs => "cty.MapVal(" ++ goStringAttrs xs ++ ")"

/-- Comma-joined `goString` of the elements. -/
def goStringList : List CtyValue → String
  | [] => ""
  | [x] => goString x
  | x :: rest => goString x ++ ", " ++ goStringList rest

/-- Comma-joined `goString` of the attribute values with their names. -/
def goStringAttrs : List (String × CtyValue) → String
  | [] => ""
  | [(k, x)] => k ++ ": " ++ goString x
  | (k, x) :: rest => k ++ ": " ++ goString x ++ ", " ++ goStringAttrs rest

end

mutual

/-- `fmtCty` from compareResult.go.  The `switch in.Type()` arms: a bool
renders via `Value.True` (which panics on null/unknown), a number via
`AsBigFloat` (ditto; integral numbers print with `%d`), a string via
`AsString` (ditto).  List- and tuple-typed values render their elements
recursively and are then printed with Go's `%s` of a `[]string`, i.e.
space-joined inside brackets (`LengthInt` panics first when the list value
is null or unknown).  Everything else falls back to `GoString`. -/
def fmtCty : CtyValue → GoRes String
  | .boolV b => .ok (if b then "true" else "false")
  | .number n => .ok (toString n)
  | .stringV s => .ok s
  | .nullV ty =>
    match ty with
    | .bool => .panics "value is null"
    | .number => .panics "value is null"
    | .string => .panics "value is null"
    | .list _ => .panics "value is null"
    | _ => .ok (goString (.nullV ty))
  | .unknown ty =>
    match ty with
    | .bool => .panics "value is unknown"
    | .number => .panics "value is unknown"
    | .string => .panics "value is unknown"
    | .list _ => .panics "value is unknown"
    | _ => .ok (goString (.unknown ty))
  | .listV ty xs =>
    match fmtCtyList xs with
    | .panics m => .panics m
    | .ok parts => .ok ("[" ++ String.intercalate " " parts ++ "]")
  | .object xs => .ok (goString (.object xs))
  | .mapV ty xs => .ok (goString (.mapV ty xs))

/-- `fmtCty` of every element, in order, first panic aborts. -/
def fmtCtyList : List CtyValue → GoRes (List String)
  | [] => .ok []
  | x :: rest =>
    match fmtCty x with
    | .panics m => .panics m
    | .ok s =>
      match fmtCtyList rest with
      | .panics m => .panics m
      | .ok ss => .ok (s :: ss)

end

/-- `cty.ListVal` as invoked by the comparison library (on the expected
values): panics on an empty slice or inconsistent element types. -/
def listValGo (vals : List CtyValue) : GoRes CtyValue :=
  match vals with
  | [] => .panics "must not call ListVal with empty slice"
  | v :: rest =>
    if rest.all (fun w => tyBEq (typeOf w) (typeOf v)) then
      .ok (.listV (typeOf v) vals)
    else .panics "inconsistent list element types"

/-- `IsOneOf` from compareResult.go.  On a mismatch the message is built
with `fmt.Sprintf("returned value %s not in expected values %v", ...)`
whose two verbs sit between backticks in the format string; the arguments
are evaluated left to right (`fmtCty(got)`, then `cty.ListVal(expected)`,
then `fmtCty` of that), so their panics fire in that order. -/
def IsOneOf (got : CtyValue) (expected : List CtyValue) :
    GoRes (Bool × String × Option String) :=
  match compareResults got expected with
  | .panics m => .panics m
  | .ok true => .ok (true, "", none)
  | .ok false =>
    match fmtCty got with
    | .panics m => .panics m
    | .ok sa =>
      match listValGo expected with
      | .panics m => .panics m
      | .ok lv =>
        match fmtCty lv with
        | .panics m => .panics m
        | .ok se =>
          .ok (false,
            "returned value `" ++ sa ++ "` not in expected values `" ++ se
              ++ "`", none)

/-- The collection loop of `EachIsOneOf`: `compareResults` of each element
against the same expected set (its panic aborts the loop). -/
def eachLoop (elems : List CtyValue) (expected : List CtyValue) :
    GoRes (List Bool) :=
  match elems with
  | [] => .ok []
  | v :: rest =>
    match compareResults v expected with
    | .panics m => .panics m
    | .ok b =>
      match eachLoop rest expected with
      | .panics m => .panics m
      | .ok bs => .ok (b :: bs)

/-- `EachIsOneOf` from compareResult.go: a non-list-typed argument is the
only case that returns a non-nil error; a null or unknown list-typed value
panics at `LengthInt`; otherwise every element is checked and a failing
set produces the plural-form message (same argument order as
`IsOneOf`). -/
def EachIsOneOf (got : CtyValue) (expected : List CtyValue) :
    GoRes (Bool × String × Option String) :=
  if ¬(isListType (typeOf got) = true) then
    .ok (false, "", some ("expected a list but got " ++ tyGoString (typeOf got)))
  else
    match got with
    | .listV ty elems =>
      match eachLoop elems expected with
      | .panics m => .panics m
      | .ok results =>
        if ¬(allTrue results = true) then
          match fmtCty (.listV ty elems) with
          | .panics m => .panics m
          | .ok sa =>
            match listValGo expected with
            | .panics m => .panics m
            | .ok lv =>
              match fmtCty lv with
              | .panics m => .panics m
              | .ok se =>
                .ok (false,
                  "returned values `" ++ sa ++ "` not in expected values `"
                    ++ se ++ "`", none)
        else .ok (true, "", none)
    | _ => .panics "LengthInt on an unknown or null collection"

/-- `IsKnown` from compareResult.go. -/
def IsKnown (got : CtyValue) : GoRes (Bool × String × Option String) :=
  if isKnownV got = false then .ok (false, "returned value is unknown", none)
  else .ok (true, "", none)

/-- `IsNotKnown` from compareResult.go. -/
def IsNotKnown (got : CtyValue) : GoRes (Bool × String × Option String) :=
  if isKnownV got = true then .ok (false, "returned value is known", none)
  else .ok (true, "", none)

/-- `IsNotNull` from compareResult.go. -/
def IsNotNull (got : CtyValue) : GoRes (Bool × String × Option String) :=
  if isNullV got = true then
    .ok (false, "returned value is null but not expected to be", none)
  else .ok (true, "", none)

/-- `IsNull` from compareResult.go. -/
def IsNull (got : CtyValue) : GoRes (Bool × String × Option String) :=
  if isNullV got = false then
    .ok (false, "returned value is not null but expected to be", none)
  else .ok (true, "", none)

mutual

/-- Modelled from the spec (§4.3 "Structural equality"): `Null` equals only
`Null`, `Bool`/`Number`/`String` equal by value, `List` equals elementwise
in order with the same length required, equality never holds across
different kinds (the type guard), `Unknown` is never structurally equal to
anything, and objects/maps extend the same recursive content comparison
the glossary describes. -/
def specStructEq (a b : CtyValue) : Bool :=
  if ¬(tyBEq (typeOf a) (typeOf b) = true) then false
  else
    match a, b with
    | .unknown _, _ => false
    | _, .unknown _ => false
    | .nullV _, .nullV _ => true
    | .nullV _, _ => false
    | _, .nullV _ => false
    | .boolV x, .boolV y => x == y
    | .number x, .number y => x == y
    | .stringV x, .stringV y => x == y
    | .listV _ xs, .listV _ ys => specStructEqList xs ys
    | .object xs, .object ys => specStructEqAttrs xs ys
    | .mapV _ xs, .mapV _ ys =>
      xs.length == ys.length && specStructEqMap xs ys
    | _, _ => false

/-- Elementwise spec-side structural equality (unequal lengths fail). -/
def specStructEqList : List CtyValue → List CtyValue → Bool
  | [], [] => true
  | x :: xs, y :: ys => specStructEq x y && specStructEqList xs ys
  | _, _ => false

/-- Attributewise spec-side structural equality. -/
def specStructEqAttrs : List (String × CtyValue) → List (String × CtyValue) → Bool
  | [], [] => true
  | (k, x) :: xs, (k', y) :: ys =>
    k == k' && specStructEq x y && specStructEqAttrs xs ys
  | _, _ => false

/-- Keywise spec-side structural equality for maps. -/
def specStructEqMap : List (String × CtyValue) → List (String × CtyValue) → Bool
  | [], _ => true
  | (k, x) :: xs, ys =>
    match lookupAttr ys k with
    | none => false
    | some y => specStructEq x y && specStructEqMap xs ys

end

/-- The candidate predicate `compareLoop` decides, in specification form:
some expected value that the actual one converts to is structurally equal
to the converted actual value. -/
def specAny (got : CtyValue) (want : List CtyValue) : Bool :=
  want.any fun w =>
    match convertV got (typeOf w) with
    | .ok c => specStructEq w c
    | .error _ => false

/-- The value a successful field descent of `QueryCty` recurses into:
present attribute of a concrete object, or the unknown-typed attribute of
an unknown object (`GetAttr` on unknown); `none` when the evaluator does
not descend (absent attribute, null object, non-object). -/
def fieldDescend (v : CtyValue) (name : String) : Option CtyValue :=
  match v with
  | .object attrs => lookupAttr attrs name
  | .unknown (.object atys) => (lookupAttr atys name).map CtyValue.unknown
  | _ => none

/-- `Reaches v q v' q'`: evaluating `QueryCty v q`, the evaluator applies
itself to the subproblem `(v', q')`.  Constructors mirror the three
descents of the source: into a present attribute (field segment, remainder
nonempty), into an in-bounds element (index segment), and into any element
of a wildcard whose predecessors all evaluate successfully (the loop
aborts at the first failure, so later elements are reached only past
successful ones). -/
inductive Reaches : CtyValue → List Char → CtyValue → List Char → Prop where
  | refl (v : CtyValue) (q : List Char) : Reaches v q v q
  | fieldStep (v : CtyValue) (q : List Char) (u v' : CtyValue) (q' : List Char)
      (hp : (querySegmentPertainsToList (nextQuerySegment q).1).2 = false)
      (hr : (nextQuerySegment q).2 ≠ [])
      (hd : fieldDescend v (String.mk (nextQuerySegment q).1) = some u)
      (htl : Reaches u (nextQuerySegment q).2 v' q') : Reaches v q v' q'
  | indexStep (ty : CtyType) (elems : List CtyValue) (q : List Char) (i : Int)
      (u v' : CtyValue) (q' : List Char)
      (hp : querySegmentPertainsToList (nextQuerySegment q).1 = (i, true))
      (hne : i ≠ -1) (hge : 0 ≤ i) (hlt : i < (elems.length : Int))
      (hr : (nextQuerySegment q).2 ≠ [])
      (hg : elems.get? i.toNat = some u)
      (htl : Reaches u (nextQuerySegment q).2 v' q') :
      Reaches (.listV ty elems) q v' q'
  | wildStep (ty : CtyType) (pre : List CtyValue) (u : CtyValue)
      (post : List CtyValue) (q : List Char) (v' : CtyValue) (q' : List Char)
      (hp : querySegmentPertainsToList (nextQuerySegment q).1 = (-1, true))
      (hr : (nextQuerySegment q).2 ≠ [])
      (hok : ∀ w ∈ pre, ∃ r, QueryCty w (nextQuerySegment q).2 = .ok r)
      (htl : Reaches u (nextQuerySegment q).2 v' q') :
      Reaches (.listV ty (pre ++ u :: post)) q v' q'

/-- The structural situation that raises the not-found error: a field
segment against an object-typed value whose type lacks that attribute. -/
def NotFoundCause (v : CtyValue) (q : List Char) : Prop :=
  (querySegmentPertainsToList (nextQuerySegment q).1).2 = false ∧
  ∃ atys, typeOf v = .object atys ∧
    lookupAttr atys (String.mk (nextQuerySegment q).1) = none

/-- The structural situation that raises the field-side type-mismatch
error in the source: a field segment against a value that is neither
object- nor map-typed. -/
def TMFieldCause (v : CtyValue) (q : List Char) : Prop :=
  (querySegmentPertainsToList (nextQuerySegment q).1).2 = false ∧
  isObjectType (typeOf v) = false ∧ isMapType (typeOf v) = false

/-- The claim's version of the field-side type-mismatch situation: a field
segment against any non-object value (maps not excluded). -/
def TMFieldCauseClaim (v : CtyValue) (q : List Char) : Prop :=
  (querySegmentPertainsToList (nextQuerySegment q).1).2 = false ∧
  isObjectType (typeOf v) = false

/-- The structural situation that raises the list-side type-mismatch
error: an index or wildcard segment against a non-list-typed value. -/
def TMListCause (v : CtyValue) (q : List Char) : Prop :=
  (querySegmentPertainsToList (nextQuerySegment q).1).2 = true ∧
  isListType (typeOf v) = false

/-- Whether the result of `QueryCty` is a type-mismatch error (either of
the two messages the source produces for wrong structural kinds). -/
def isTMError (r : Except QErr CtyValue) : Prop :=
  r = .error .notObjectOrMap ∨ ∃ s, r = .error (.notList s)

/-- Scalar cty kinds (no payload structure for the evaluator to enter). -/
def isScalarTy : CtyType → Bool
  | .bool => true
  | .number => true
  | .string => true
  | _ => false

mutual

/-- Values on which `QueryCty` cannot reach any of the modelled Go panics:
no map-kind values anywhere, null/unknown only at scalar kinds, and every
list nonempty and well-typed (each element of the declared element
type). -/
def SafeVal : CtyValue → Bool
  | .boolV _ => true
  | .number _ => true
  | .stringV _ => true
  | .nullV ty => isScalarTy ty
  | .unknown ty => isScalarTy ty
  | .listV ty elems => !elems.isEmpty && SafeList ty elems
  | .object attrs => SafeAttrs attrs
  | .mapV _ _ => false

/-- Every element safe and of the declared element type. -/
def SafeList (ty : CtyType) : List CtyValue → Bool
  | [] => true
  | v :: rest => tyBEq (typeOf v) ty && SafeVal v && SafeList ty rest

/-- Every attribute value safe. -/
def SafeAttrs : List (String × CtyValue) → Bool
  | [] => true
  | (_, v) :: rest => SafeVal v && SafeAttrs rest

end

/-- A query segment that cannot reach the negative-index panic: if it
parses as an integer at all, the integer is at least −1 (−1 is the
wildcard alias, nonnegative integers are bounds-checked indices). -/
def segSafe (s : List Char) : Bool :=
  match goAtoi s with
  | some i => decide (-1 ≤ i)
  | none => true

/-- Every segment of the query is `segSafe`. -/
def SafeQuery (q : List Char) : Bool :=
  segSafe (nextQuerySegment q).1 &&
  (if h : (nextQuerySegment q).2 = [] then true
   else SafeQuery (nextQuerySegment q).2)
termination_by q.length
decreasing_by
  exact nqs_snd_lt_of_ne h

/-- Type-level mirror of the evaluator: the type of a successful
`QueryCty` result is a function of the input value's type and the query
(on `SafeVal` inputs), computed here. -/
def typeQuery (t : CtyType) (q : List Char) : Option CtyType :=
  if hp : (querySegmentPertainsToList (nextQuerySegment q).1).2 = true then
    match t with
    | .list et =>
      if (querySegmentPertainsToList (nextQuerySegment q).1).1 = -1 then
        if h : (nextQuerySegment q).2 = [] then some (.list et)
        else (typeQuery et (nextQuerySegment q).2).map CtyType.list
      else
        if h : (nextQuerySegment q).2 = [] then some et
        else typeQuery et (nextQuerySegment q).2
    | .bool => none
    | .number => none
    | .string => none
    | .map _ => none
    | .object _ => none
  else
    match t with
    | .object atys =>
      match lookupAttr atys (String.mk (nextQuerySegment q).1) with
      | some at2 =>
        if h : (nextQuerySegment q).2 = [] then some at2
        else typeQuery at2 (nextQuerySegment q).2
      | none => none
    | .bool => none
    | .number => none
    | .string => none
    | .map _ => none
    | .list _ => none
termination_by q.length
decreasing_by
  all_goals exact nqs_snd_lt_of_ne h

/-! ## Supporting lemmas -/

theorem tyBEq_refl (a : CtyType) : tyBEq a a = true := (tyBEq_iff a a).mpr rfl

theorem lookupAttr_attrsTypes (attrs : List (String × CtyValue)) (k : String) :
    lookupAttr (attrsTypes attrs) k = (lookupAttr attrs k).map typeOf := by
  induction attrs with
  | nil => simp [attrsTypes, lookupAttr]
  | cons p rest ih =>
    obtain ⟨k', v⟩ := p
    by_cases hk : k' = k <;> simp [attrsTypes, lookupAttr, hk, ih]

theorem lookupAttr_sizeOf {α : Type} [SizeOf α] (xs : List (String × α))
    (k : String) (u : α) (h : lookupAttr xs k = some u) :
    sizeOf u < sizeOf xs := by
  induction xs with
  | nil => simp [lookupAttr] at h
  | cons p rest ih =>
    obtain ⟨k', v⟩ := p
    by_cases hk : k' = k
    · simp [lookupAttr, hk] at h
      subst h
      simp
      omega
    · simp [lookupAttr, hk] at h
      have := ih h
      simp
      omega

theorem QueryCty_nil (v : CtyValue) :
    QueryCty v [] =
      if ¬(isObjectType (typeOf v) = true ∨ isMapType (typeOf v) = true) then
        .error .notObjectOrMap
      else
        match attributeTypes (typeOf v) with
        | none => .error (.panics "AttributeTypes on non-object Type")
        | some atys =>
          match lookupAttr atys (String.mk []) with
          | none => .error (.attrNotFound [])
          | some _ => getAttrGo v (String.mk []) := by
  simp [QueryCty, nextQuerySegment, cutDot, querySegmentPertainsToList, goAtoi]

/-! ## C8 — termination of the evaluator -/

/-- C8: every recursive call of `QueryCty` consumes at least one path
segment — whenever the remainder handed to a recursive call is nonempty
(the only situation in which the source recurses), it is strictly shorter
than the current query, so the finite path bounds the recursion depth.
(`QueryCty` is accordingly definable as a total function above.) -/
theorem c8_recursive_call_consumes_segment (q : List Char)
    (h : (nextQuerySegment q).2 ≠ []) :
    (nextQuerySegment q).2.length < q.length :=
  nqs_snd_lt_of_ne h

/-- Witness for C8 at the concrete query `a.b`. -/
theorem c8_recursive_call_consumes_segment_witness :
    (nextQuerySegment ['a', '.', 'b']).2 ≠ [] ∧
      (nextQuerySegment ['a', '.', 'b']).2.length < ['a', '.', 'b'].length :=
  ⟨by decide, c8_recursive_call_consumes_segment ['a', '.', 'b'] (by decide)⟩

/-! ## C1 — unknown values are not short-circuited -/

/-- C1 (claim right, code wrong): the spec requires resolution to stop
immediately and return the Unknown value when an Unknown is reached, with
no structural validation of the rest of the path.  The source `QueryCty`
has no such short-circuit: on the unknown string value with the remaining
path `a` it structurally validates the segment and fails with the
type-mismatch error ("query segments remain and value is not an object or
map") instead of returning the Unknown value. -/
theorem c1_unknown_midpath_is_error :
    QueryCty (.unknown .string) ['a'] = .error .notObjectOrMap ∧
      ∀ r, QueryCty (.unknown .string) ['a'] ≠ .ok r := by
  constructor
  · simp [QueryCty, nextQuerySegment, cutDot, querySegmentPertainsToList,
      goAtoi, isDigitB, typeOf, isObjectType, isMapType]
  · intro r
    simp [QueryCty, nextQuerySegment, cutDot, querySegmentPertainsToList,
      goAtoi, isDigitB, typeOf, isObjectType, isMapType]

/-! ## C5 — the empty path -/

/-- C5 counterexample: the empty path does not return the value unchanged;
on the string value `x` it fails with the type-mismatch error. -/
theorem c5_counterexample :
    QueryCty (.stringV "x") [] = .error .notObjectOrMap ∧
      QueryCty (.stringV "x") [] ≠ .ok (.stringV "x") := by
  constructor
  · simp [QueryCty, nextQuerySegment, cutDot, querySegmentPertainsToList,
      goAtoi, typeOf, isObjectType, isMapType]
  · simp [QueryCty, nextQuerySegment, cutDot, querySegmentPertainsToList,
      goAtoi, typeOf, isObjectType, isMapType]

/-- C5 amended: the empty path is processed as an ordinary field segment
named `""`: a value that is neither object- nor map-typed fails with the
type-mismatch error, an object-typed value without an empty-named
attribute fails with the not-found error, an object with an empty-named
attribute yields that attribute's value — and in no case is the value
itself returned unchanged. -/
theorem c5_empty_path_is_empty_field (v : CtyValue) :
    (¬(isObjectType (typeOf v) = true ∨ isMapType (typeOf v) = true) →
      QueryCty v [] = .error .notObjectOrMap) ∧
    (∀ atys, typeOf v = .object atys →
      lookupAttr atys (String.mk []) = none →
      QueryCty v [] = .error (.attrNotFound [])) ∧
    (∀ attrs u, v = .object attrs →
      lookupAttr attrs (String.mk []) = some u → QueryCty v [] = .ok u) ∧
    QueryCty v [] ≠ .ok v := by
  refine ⟨?_, ?_, ?_, ?_⟩
  · intro h
    rw [QueryCty_nil]
    simp [h]
  · intro atys hty hl
    rw [QueryCty_nil]
    simp [hty, isObjectType, isMapType, attributeTypes, hl]
  · intro attrs u hv hl
    subst hv
    rw [QueryCty_nil]
    simp [typeOf, isObjectType, isMapType, attributeTypes,
      lookupAttr_attrsTypes, hl, getAttrGo]
  · -- the result of a successful empty-path lookup is a strict
    -- substructure of `v` (by `sizeOf`), hence never `v` itself
    cases v with
    | boolV b => rw [QueryCty_nil]; simp [typeOf, isObjectType, isMapType]
    | number n => rw [QueryCty_nil]; simp [typeOf, isObjectType, isMapType]
    | stringV s => rw [QueryCty_nil]; simp [typeOf, isObjectType, isMapType]
    | listV t es => rw [QueryCty_nil]; simp [typeOf, isObjectType, isMapType]
    | mapV t es =>
      rw [QueryCty_nil]
      simp [typeOf, isObjectType, isMapType, attributeTypes]
    | nullV ty =>
      rw [QueryCty_nil]
      cases ty with
      | object atys =>
        simp only [typeOf, isObjectType, isMapType, attributeTypes]
        cases hu : lookupAttr atys (String.mk []) <;> simp [hu, getAttrGo]
      | bool => simp [typeOf, isObjectType, isMapType]
      | number => simp [typeOf, isObjectType, isMapType]
      | string => simp [typeOf, isObjectType, isMapType]
      | list t => simp [typeOf, isObjectType, isMapType]
      | map t => simp [typeOf, isObjectType, isMapType, attributeTypes]
    | object attrs =>
      rw [QueryCty_nil]
      simp only [typeOf, isObjectType, isMapType, attributeTypes,
        lookupAttr_attrsTypes]
      cases hu : lookupAttr attrs (String.mk []) with
      | none => simp [hu]
      | some u =>
        simp [hu, getAttrGo]
        intro he
        have h1 := lookupAttr_sizeOf attrs (String.mk []) u hu
        have h2 : sizeOf (CtyValue.object attrs) = 1 + sizeOf attrs := by simp
        rw [he] at h1
        omega
    | unknown ty =>
      rw [QueryCty_nil]
      cases ty with
      | object atys =>
        simp only [typeOf, isObjectType, isMapType, attributeTypes]
        cases hu : lookupAttr atys (String.mk []) with
        | none => simp [hu]
        | some t =>
          simp [hu, getAttrGo]
          intro he
          have h1 := lookupAttr_sizeOf atys (String.mk []) t hu
          have h2 : sizeOf (CtyType.object atys) = 1 + sizeOf atys := by simp
          rw [he] at h1
          omega
      | bool => simp [typeOf, isObjectType, isMapType]
      | number => simp [typeOf, isObjectType, isMapType]
      | string => simp [typeOf, isObjectType, isMapType]
      | list t => simp [typeOf, isObjectType, isMapType]
      | map t => simp [typeOf, isObjectType, isMapType, attributeTypes]

/-- Witness for C5's amended theorem: an object with an empty-named
attribute yields that attribute, and the other clauses at their concrete
inputs. -/
theorem c5_empty_path_is_empty_field_witness :
    lookupAttr [("", CtyValue.stringV "y")] (String.mk []) =
      some (.stringV "y") ∧
    QueryCty (.object [("", .stringV "y")]) [] = .ok (.stringV "y") ∧
    QueryCty (.stringV "z") [] = .error .notObjectOrMap :=
  ⟨by simp [lookupAttr],
   (c5_empty_path_is_empty_field (.object [("", .stringV "y")])).2.2.1
     [("", .stringV "y")] (.stringV "y") rfl (by simp [lookupAttr]),
   (c5_empty_path_is_empty_field (.stringV "z")).1
     (by simp [typeOf, isObjectType, isMapType])⟩

/-! ## C6 — parser segment classification -/

/-- C6 counterexample: the segment `-2` parses as a (negative) integer and
is classified as a list operation (`true`), while the claim requires any
negative-integer segment to denote a Field (classification `false`). -/
theorem c6_counterexample :
    querySegmentPertainsToList ['-', '2'] = (-2, true) ∧ (-2 : Int) < 0 := by
  constructor
  · decide
  · decide

/-- C6 amended: the parser splits on the first `.` (whole string and empty
remainder when no dot occurs); the segment `#` is the wildcard; any
segment `strconv.Atoi` accepts — including negative integers, a sign
being permitted — is classified as a list operation carrying that
integer (so `-2` is an Index-classified list operation, not a Field, and
a parsed `-1` coincides with the wildcard's code); everything else,
including every non-integer non-`#` segment, is classified as Field. -/
theorem c6_segment_classification :
    (∀ a b : List Char, '.' ∉ a →
      nextQuerySegment (a ++ '.' :: b) = (a, b)) ∧
    (∀ q : List Char, '.' ∉ q → nextQuerySegment q = (q, [])) ∧
    querySegmentPertainsToList ['#'] = (-1, true) ∧
    (∀ s i, goAtoi s = some i → querySegmentPertainsToList s = (i, true)) ∧
    (∀ s, s ≠ ['#'] → goAtoi s = none →
      querySegmentPertainsToList s = (0, false)) ∧
    (∀ ds : List Char, ds ≠ [] → (∀ c ∈ ds, isDigitB c = true) →
      (digitsVal ds : Int) ≤ 2 ^ 63 →
      goAtoi ('-' :: ds) = some (-(digitsVal ds : Int))) := by
  refine ⟨?_, ?_, by decide, ?_, ?_, ?_⟩
  · intro a b ha
    induction a with
    | nil => simp [nextQuerySegment, cutDot]
    | cons c a' ih =>
      have hc : c ≠ '.' := by
        intro he
        exact ha (he ▸ List.mem_cons_self c a')
      have ha' : '.' ∉ a' := fun hm => ha (List.mem_cons_of_mem c hm)
      simp only [nextQuerySegment] at ih ⊢
      simp [cutDot, hc, ih ha']
  · intro q hq
    induction q with
    | nil => simp [nextQuerySegment, cutDot]
    | cons c q' ih =>
      have hc : c ≠ '.' := by
        intro he
        exact hq (he ▸ List.mem_cons_self c q')
      have hq' : '.' ∉ q' := fun hm => hq (List.mem_cons_of_mem c hm)
      simp only [nextQuerySegment] at ih ⊢
      simp [cutDot, hc, ih hq']
  · intro s i h
    by_cases hs : s = ['#']
    · subst hs
      simp [goAtoi, isDigitB] at h
    · simp [querySegmentPertainsToList, hs, h]
  · intro s hs h
    simp [querySegmentPertainsToList, hs, h]
  · intro ds hne hdig hle
    have hall : ds.all isDigitB = true := by
      rw [List.all_eq_true]
      intro c hc
      exact hdig c hc
    have h1 : (0 : Int) ≤ (digitsVal ds : Int) := Int.ofNat_nonneg _
    simp only [goAtoi]
    simp only [show (('-' : Char) = '+') = False from by decide, if_false]
    norm_num [hne, hall]
    intro h
    have h2 : digitsVal ds ≤ 9223372036854775808 := by exact_mod_cast hle
    exact absurd (h h2) (by omega)

/-- Witness for C6's amended theorem: splitting `foo.b`, and the segments
`-2` (negative list operation) and `-7`. -/
theorem c6_segment_classification_witness :
    ('.' ∉ (['f', 'o', 'o'] : List Char)) ∧
    nextQuerySegment (['f', 'o', 'o'] ++ '.' :: ['b']) = (['f', 'o', 'o'], ['b']) ∧
    goAtoi ['-', '2'] = some (-2) ∧
    querySegmentPertainsToList ['-', '2'] = (-2, true) ∧
    goAtoi ('-' :: ['7']) = some (-(digitsVal ['7'] : Int)) :=
  ⟨by decide,
   c6_segment_classification.1 ['f', 'o', 'o'] ['b'] (by decide),
   by decide,
   c6_segment_classification.2.2.2.1 ['-', '2'] (-2) (by decide),
   c6_segment_classification.2.2.2.2.2 ['7'] (by decide) (by decide)
     (by decide)⟩

/-! ## C7 — diagnostic message rendering -/

/-- C7 counterexample: at the claim's own example (actual `fiz`, expected
`[not_fiz]`) the produced message carries backticks around the two
rendered parts, so it is not the claimed bare template instance; and with
two expected values the list renders space-joined, not comma-joined. -/
theorem c7_counterexample :
    IsOneOf (.stringV "fiz") [.stringV "not_fiz"]
      = .ok (false,
        "returned value `fiz` not in expected values `[not_fiz]`", none) ∧
    "returned value `fiz` not in expected values `[not_fiz]`"
      ≠ "returned value fiz not in expected values [not_fiz]" ∧
    IsOneOf (.stringV "fiz") [.stringV "not_fiz", .stringV "also_not"]
      = .ok (false,
        "returned value `fiz` not in expected values `[not_fiz also_not]`",
        none) ∧
    "returned value `fiz` not in expected values `[not_fiz also_not]`"
      ≠ "returned value fiz not in expected values [not_fiz,also_not]" := by
  refine ⟨?_, by decide, ?_, by decide⟩ <;>
    (simp [IsOneOf, compareResults, compareLoop, convertV, convOk, ctyEq,
      fmtCty, fmtCtyList, listValGo, tyBEq, typeOf, isKnownV, isNullV,
      goParseNumber, allTrue] <;> rfl)

theorem fmtCtyList_of_forall2 {xs : List CtyValue} {parts : List String}
    (h : List.Forall₂ (fun v p => fmtCty v = GoRes.ok p) xs parts) :
    fmtCtyList xs = .ok parts := by
  induction h with
  | nil => simp [fmtCtyList]
  | cons hhead _ ih => simp [fmtCtyList, hhead, ih]

theorem isOneOf_fail_message (got : CtyValue) (want : List CtyValue)
    (sa se : String) (lv : CtyValue)
    (hc : compareResults got want = GoRes.ok false)
    (ha : fmtCty got = .ok sa) (hl : listValGo want = .ok lv)
    (hs : fmtCty lv = .ok se) :
    IsOneOf got want = .ok (false,
      "returned value `" ++ sa ++ "` not in expected values `" ++ se ++ "`",
      none) := by
  simp [IsOneOf, hc, ha, hl, hs]

/-- C7 amended: the failure message template is
``returned value `A` not in expected values `B` `` — the two rendered
parts sit between backticks (the format string is
``returned value `%s` not in expected values `%v` ``) — and rendering is
deterministic: booleans as `true`/`false`, integral numbers without a
decimal point, strings verbatim without quoting, and a list as a
bracketed, SPACE-joined rendering of its elements' own renderings
(recursively), Go's `%s` of a string slice. -/
theorem c7_message_rendering :
    (∀ got want sa lv se,
      compareResults got want = GoRes.ok false →
      fmtCty got = .ok sa → listValGo want = .ok lv → fmtCty lv = .ok se →
      IsOneOf got want = .ok (false,
        "returned value `" ++ sa ++ "` not in expected values `" ++ se ++ "`",
        none)) ∧
    (∀ b, fmtCty (.boolV b) = .ok (if b then "true" else "false")) ∧
    (∀ n : Int, fmtCty (.number n) = .ok (toString n)) ∧
    (∀ s, fmtCty (.stringV s) = .ok s) ∧
    (∀ ty xs parts,
      List.Forall₂ (fun v p => fmtCty v = GoRes.ok p) xs parts →
      fmtCty (.listV ty xs)
        = .ok ("[" ++ String.intercalate " " parts ++ "]")) := by
  refine ⟨?_, ?_, ?_, ?_, ?_⟩
  · intro got want sa lv se hc ha hl hs
    exact isOneOf_fail_message got want sa se lv hc ha hl hs
  · intro b
    cases b <;> simp [fmtCty]
  · intro n
    simp [fmtCty]
  · intro s
    simp [fmtCty]
  · intro ty xs parts h
    simp [fmtCty, fmtCtyList_of_forall2 h]

/-- Witness for C7's amended theorem at the `fiz`/`not_fiz` example. -/
theorem c7_message_rendering_witness :
    compareResults (.stringV "fiz") [.stringV "not_fiz"] = GoRes.ok false ∧
    IsOneOf (.stringV "fiz") [.stringV "not_fiz"]
      = .ok (false,
        "returned value `fiz` not in expected values `[not_fiz]`", none) :=
  ⟨by simp [compareResults, compareLoop, convertV, tyBEq, typeOf, isKnownV,
      isNullV, ctyEq] <;> rfl,
   c7_message_rendering.1 (.stringV "fiz") [.stringV "not_fiz"] "fiz"
     (.listV .string [.stringV "not_fiz"]) "[not_fiz]"
     (by simp [compareResults, compareLoop, convertV, tyBEq, typeOf, isKnownV,
       isNullV, ctyEq] <;> rfl)
     (by simp [fmtCty])
     (by simp [listValGo, tyBEq, typeOf])
     (by simp [fmtCty, fmtCtyList] <;> rfl)⟩

/-! ## C9 — unknown and null actual values -/

/-- C9 counterexample: with the empty expected set and a null string
actual, `IsOneOf` does not return `(false, message, nil)`: rendering the
actual value panics (`AsString` on a null value) while the message is
built — the claimed behaviour fails both for the empty set and for
null/unknown scalar actuals. -/
theorem c9_counterexample :
    IsOneOf (.nullV .string) [] = .panics "value is null" := by
  simp [IsOneOf, compareResults, isKnownV, isNullV, fmtCty]

theorem compareResults_unknown_null (got : CtyValue) (want : List CtyValue)
    (h : isKnownV got = false ∨ isNullV got = true) :
    compareResults got want = .ok false := by
  rcases h with h | h <;> simp [compareResults, h]

theorem eachLoop_allTrue_false {elems want : List CtyValue} {v : CtyValue}
    (hv : v ∈ elems) (hf : compareResults v want = GoRes.ok false) :
    ∀ results, eachLoop elems want = .ok results → allTrue results = false := by
  induction elems with
  | nil => cases hv
  | cons x rest ih =>
    intro results hr
    rcases List.mem_cons.mp hv with he | hm
    · subst he
      cases hrest : eachLoop rest want with
      | panics m => simp [eachLoop, hf, hrest] at hr
      | ok bs =>
        simp [eachLoop, hf, hrest] at hr
        subst hr
        simp [allTrue]
    · cases hx : compareResults x want with
      | panics m => simp [eachLoop, hx] at hr
      | ok b =>
        cases hrest : eachLoop rest want with
        | panics m => simp [eachLoop, hx, hrest] at hr
        | ok bs =>
          simp [eachLoop, hx, hrest] at hr
          subst hr
          have hb := ih hm bs hrest
          cases b <;> simp [allTrue, hb]

/-- C9 amended: an Unknown or Null actual value is an automatic mismatch,
never a vacuous pass: `compareResults` returns false for it, `IsOneOf`
never passes on it (any normal return has verdict false and nil error),
and a known list containing an Unknown or Null element never lets
`EachIsOneOf` pass.  The claimed `(false, message, nil)` triple is
produced exactly when message rendering succeeds (e.g. an object-kind
actual with a renderable nonempty expected set); for unknown/null
scalar-kind or list-kind actuals, or an empty expected set, the message
construction panics instead of returning. -/
theorem c9_unknown_null_never_pass :
    (∀ got want, isKnownV got = false ∨ isNullV got = true →
      compareResults got want = GoRes.ok false) ∧
    (∀ got want b m e, isKnownV got = false ∨ isNullV got = true →
      IsOneOf got want = GoRes.ok (b, m, e) → b = false ∧ e = none) ∧
    (∀ ty elems want m e,
      (∃ v ∈ elems, isKnownV v = false ∨ isNullV v = true) →
      EachIsOneOf (.listV ty elems) want ≠ GoRes.ok (true, m, e)) ∧
    (∀ got want sa lv se, isKnownV got = false ∨ isNullV got = true →
      fmtCty got = .ok sa → listValGo want = .ok lv → fmtCty lv = .ok se →
      IsOneOf got want = .ok (false,
        "returned value `" ++ sa ++ "` not in expected values `" ++ se ++ "`",
        none)) := by
  refine ⟨compareResults_unknown_null, ?_, ?_, ?_⟩
  · intro got want b m e h hok
    have hc := compareResults_unknown_null got want h
    simp only [IsOneOf, hc] at hok
    cases ha : fmtCty got with
    | panics pm => simp [ha] at hok
    | ok sa =>
      cases hl : listValGo want with
      | panics pm => simp [ha, hl] at hok
      | ok lv =>
        cases hs : fmtCty lv with
        | panics pm => simp [ha, hl, hs] at hok
        | ok se =>
          simp [ha, hl, hs] at hok
          exact ⟨hok.1, hok.2.2.symm⟩
  · intro ty elems want m e hex hok
    obtain ⟨v, hv, hun⟩ := hex
    have hf := compareResults_unknown_null v want hun
    simp only [EachIsOneOf, isListType, typeOf] at hok
    cases hloop : eachLoop elems want with
    | panics pm => simp [hloop] at hok
    | ok results =>
      have hfalse := eachLoop_allTrue_false hv hf results hloop
      simp only [hloop, hfalse] at hok
      cases ha : fmtCty (.listV ty elems) with
      | panics pm => simp [ha] at hok
      | ok sa =>
        cases hl : listValGo want with
        | panics pm => simp [ha, hl] at hok
        | ok lv =>
          cases hs : fmtCty lv with
          | panics pm => simp [ha, hl, hs] at hok
          | ok se => simp [ha, hl, hs] at hok
  · intro got want sa lv se h ha hl hs
    exact isOneOf_fail_message got want sa se lv
      (compareResults_unknown_null got want h) ha hl hs

/-- Witness for C9's amended theorem at concrete inputs: a null string
actual, a list containing it, and an unknown object-kind actual whose
message rendering succeeds. -/
theorem c9_unknown_null_never_pass_witness :
    compareResults (.nullV .string) [.stringV "x"] = GoRes.ok false ∧
    (∀ m e, EachIsOneOf (.listV .string [.nullV .string]) [.stringV "x"]
      ≠ GoRes.ok (true, m, e)) ∧
    IsOneOf (.unknown (.object [])) [.stringV "x"]
      = .ok (false,
        "returned value `cty.UnknownVal(cty.Object(...))` not in expected values `[x]`",
        none) :=
  ⟨c9_unknown_null_never_pass.1 (.nullV .string) [.stringV "x"]
     (Or.inr (by simp [isNullV])),
   fun m e => c9_unknown_null_never_pass.2.2.1 .string [.nullV .string]
     [.stringV "x"] m e ⟨.nullV .string, by simp, Or.inr (by simp [isNullV])⟩,
   c9_unknown_null_never_pass.2.2.2 (.unknown (.object [])) [.stringV "x"]
     "cty.UnknownVal(cty.Object(...))" (.listV .string [.stringV "x"]) "[x]"
     (Or.inl (by simp [isKnownV]))
     (by simp [fmtCty, goString, tyGoString])
     (by simp [listValGo, tyBEq, typeOf])
     (by simp [fmtCty, fmtCtyList] <;> rfl)⟩

/-! ## C3 — conversion and membership semantics -/

theorem isKnownV_of_deepKnown {v : CtyValue} (h : deepKnown v = true) :
    isKnownV v = true := by
  cases v <;> simp_all [deepKnown, isKnownV]

theorem deepKnownList_mem {xs : List CtyValue} {x : CtyValue}
    (h : deepKnownList xs = true) (hm : x ∈ xs) : deepKnown x = true := by
  induction xs with
  | nil => cases hm
  | cons y ys ih =>
    simp only [deepKnownList, Bool.and_eq_true] at h
    rcases List.mem_cons.mp hm with he | hm'
    · exact he ▸ h.1
    · exact ih h.2 hm'

theorem deepKnownAttrs_mem {xs : List (String × CtyValue)} {k : String}
    {x : CtyValue} (h : deepKnownAttrs xs = true) (hm : (k, x) ∈ xs) :
    deepKnown x = true := by
  induction xs with
  | nil => cases hm
  | cons p ps ih =>
    obtain ⟨k', v⟩ := p
    simp only [deepKnownAttrs, Bool.and_eq_true] at h
    rcases List.mem_cons.mp hm with he | hm'
    · cases he
      exact h.1
    · exact ih h.2 hm'

theorem deepKnownAttrs_lookup {xs : List (String × CtyValue)} {k : String}
    {x : CtyValue} (h : deepKnownAttrs xs = true)
    (hl : lookupAttr xs k = some x) : deepKnown x = true := by
  induction xs with
  | nil => simp [lookupAttr] at hl
  | cons p ps ih =>
    obtain ⟨k', v⟩ := p
    simp only [deepKnownAttrs, Bool.and_eq_true] at h
    by_cases hk : k' = k
    · simp [lookupAttr, hk] at hl
      exact hl ▸ h.1
    · simp [lookupAttr, hk] at hl
      exact ih h.2 hl

theorem specStructEqList_length_ne {xs ys : List CtyValue}
    (h : xs.length ≠ ys.length) : specStructEqList xs ys = false := by
  induction xs generalizing ys with
  | nil =>
    cases ys with
    | nil => simp at h
    | cons y ys' => simp [specStructEqList]
  | cons x xs' ih =>
    cases ys with
    | nil => simp [specStructEqList]
    | cons y ys' =>
      have h' : xs'.length ≠ ys'.length := by
        simp at h
        omega
      simp [specStructEqList, ih h']

theorem attrsTypes_keys_eq {xs ys : List (String × CtyValue)}
    (h : attrsTypes xs = attrsTypes ys) :
    xs.map Prod.fst = ys.map Prod.fst := by
  induction xs generalizing ys with
  | nil =>
    cases ys with
    | nil => rfl
    | cons p ps => simp [attrsTypes] at h
  | cons p ps ih =>
    obtain ⟨k, v⟩ := p
    cases ys with
    | nil => simp [attrsTypes] at h
    | cons q qs =>
      obtain ⟨k', w⟩ := q
      simp only [attrsTypes, List.cons.injEq, Prod.mk.injEq] at h
      simp [h.1.1, ih h.2]

theorem elem_sizeOf_lt_list {x : CtyValue} {xs : List CtyValue} (h : x ∈ xs) :
    ∀ ty : CtyType, sizeOf x < sizeOf (CtyValue.listV ty xs) := by
  intro ty
  have h1 := List.sizeOf_lt_of_mem h
  simp only [CtyValue.listV.sizeOf_spec]
  omega

theorem attr_sizeOf_lt {k : String} {x : CtyValue}
    {xs : List (String × CtyValue)} (h : (k, x) ∈ xs) :
    sizeOf x < 1 + sizeOf xs := by
  have h1 := List.sizeOf_lt_of_mem h
  have h2 : sizeOf (k, x) = 1 + sizeOf k + sizeOf x := by simp
  omega

theorem lookupAttr_mem {α : Type} {xs : List (String × α)} {k : String}
    {x : α} (h : lookupAttr xs k = some x) : ∃ k', (k', x) ∈ xs := by
  induction xs with
  | nil => simp [lookupAttr] at h
  | cons p ps ih =>
    obtain ⟨k', v⟩ := p
    by_cases hk : k' = k
    · simp [lookupAttr, hk] at h
      exact ⟨k', by simp [h]⟩
    · simp [lookupAttr, hk] at h
      obtain ⟨k'', hm⟩ := ih h
      exact ⟨k'', List.mem_cons_of_mem _ hm⟩

theorem ctyEq_spec_aux :
    ∀ n : Nat, ∀ a b : CtyValue, sizeOf a < n →
      deepKnown a = true → deepKnown b = true →
      ctyEq a b = some (specStructEq a b) := by
  intro n
  induction n with
  | zero =>
    intro a b h
    omega
  | succ n ih =>
    intro a b hsz ha hb
    have hka := isKnownV_of_deepKnown ha
    have hkb := isKnownV_of_deepKnown hb
    by_cases hty : tyBEq (typeOf a) (typeOf b) = true
    case neg =>
      have hspec : specStructEq a b = false := by
        rw [specStructEq.eq_def, if_pos hty]
      rw [hspec, ctyEq.eq_def]
      rw [if_neg (show ¬(isKnownV a = false || isKnownV b = false) from by
        simp [hka, hkb])]
      rw [if_pos hty]
    case pos =>
      cases a with
      | unknown ty => simp [deepKnown] at ha
      | nullV ta =>
        cases b with
        | unknown tb => simp [deepKnown] at hb
        | nullV tb => simp [ctyEq, specStructEq, hka, hkb, hty, isNullV]
        | boolV y => simp [ctyEq, specStructEq, hka, hkb, hty, isNullV]
        | number y => simp [ctyEq, specStructEq, hka, hkb, hty, isNullV]
        | stringV y => simp [ctyEq, specStructEq, hka, hkb, hty, isNullV]
        | listV tb ys => simp [ctyEq, specStructEq, hka, hkb, hty, isNullV]
        | object ys => simp [ctyEq, specStructEq, hka, hkb, hty, isNullV]
        | mapV tb ys => simp [ctyEq, specStructEq, hka, hkb, hty, isNullV]
      | boolV x =>
        cases b with
        | unknown tb => simp [deepKnown] at hb
        | nullV tb => simp [ctyEq, specStructEq, hka, hkb, hty, isNullV]
        | boolV y => simp [ctyEq, specStructEq, hka, hkb, hty, isNullV]
        | number y => simp [typeOf, tyBEq] at hty
        | stringV y => simp [typeOf, tyBEq] at hty
        | listV tb ys => simp [typeOf, tyBEq] at hty
        | object ys => simp [typeOf, tyBEq] at hty
        | mapV tb ys => simp [typeOf, tyBEq] at hty
      | number x =>
        cases b with
        | unknown tb => simp [deepKnown] at hb
        | nullV tb => simp [ctyEq, specStructEq, hka, hkb, hty, isNullV]
        | number y => simp [ctyEq, specStructEq, hka, hkb, hty, isNullV]
        | boolV y => simp [typeOf, tyBEq] at hty
        | stringV y => simp [typeOf, tyBEq] at hty
        | listV tb ys => simp [typeOf, tyBEq] at hty
        | object ys => simp [typeOf, tyBEq] at hty
        | mapV tb ys => simp [typeOf, tyBEq] at hty
      | stringV x =>
        cases b with
        | unknown tb => simp [deepKnown] at hb
        | nullV tb => simp [ctyEq, specStructEq, hka, hkb, hty, isNullV]
        | stringV y => simp [ctyEq, specStructEq, hka, hkb, hty, isNullV]
        | boolV y => simp [typeOf, tyBEq] at hty
        | number y => simp [typeOf, tyBEq] at hty
        | listV tb ys => simp [typeOf, tyBEq] at hty
        | object ys => simp [typeOf, tyBEq] at hty
        | mapV tb ys => simp [typeOf, tyBEq] at hty
      | listV ta xs =>
        cases b with
        | unknown tb => simp [deepKnown] at hb
        | nullV tb => simp [ctyEq, specStructEq, hka, hkb, hty, isNullV]
        | boolV y => simp [typeOf, tyBEq] at hty
        | number y => simp [typeOf, tyBEq] at hty
        | stringV y => simp [typeOf, tyBEq] at hty
        | object ys => simp [typeOf, tyBEq] at hty
        | mapV tb ys => simp [typeOf, tyBEq] at hty
        | listV tb ys =>
          have hinner : ∀ us vs : List CtyValue,
              (∀ u ∈ us, sizeOf u < n) → deepKnownList us = true →
              deepKnownList vs = true → us.length = vs.length →
              ctyEqList us vs = some (specStructEqList us vs) := by
            intro us
            induction us with
            | nil =>
              intro vs _ _ _ hl
              cases vs with
              | nil => simp [ctyEqList, specStructEqList]
              | cons v vs' => simp at hl
            | cons u us' ihl =>
              intro vs hszs hdu hdv hl
              cases vs with
              | nil => simp at hl
              | cons v vs' =>
                simp only [deepKnownList, Bool.and_eq_true] at hdu hdv
                have h1 := ih u v (hszs u (by simp)) hdu.1 hdv.1
                have h2 := ihl vs'
                  (fun u hu => hszs u (List.mem_cons_of_mem _ hu)) hdu.2
                  hdv.2 (by simpa using hl)
                simp only [ctyEqList, specStructEqList, h1]
                cases hsp : specStructEq u v with
                | false => simp
                | true => simp [h2]
          simp only [deepKnown] at ha hb
          by_cases hlen : xs.length = ys.length
          case pos =>
            have hxs : ∀ u ∈ xs, sizeOf u < n := by
              intro u hu
              have := elem_sizeOf_lt_list hu ta
              omega
            simp [ctyEq, specStructEq, hka, hkb, hty, isNullV, hlen,
              hinner xs ys hxs ha hb hlen]
          case neg =>
            simp [ctyEq, specStructEq, hka, hkb, hty, isNullV, hlen,
              specStructEqList_length_ne hlen]
      | object xs =>
        cases b with
        | unknown tb => simp [deepKnown] at hb
        | nullV tb => simp [ctyEq, specStructEq, hka, hkb, hty, isNullV]
        | boolV y => simp [typeOf, tyBEq] at hty
        | number y => simp [typeOf, tyBEq] at hty
        | stringV y => simp [typeOf, tyBEq] at hty
        | listV tb ys => simp [typeOf, tyBEq] at hty
        | mapV tb ys => simp [typeOf, tyBEq] at hty
        | object ys =>
          have hkeys : xs.map Prod.fst = ys.map Prod.fst := by
            have h1 := (tyBEq_iff _ _).mp hty
            simp only [typeOf, CtyType.object.injEq] at h1
            exact attrsTypes_keys_eq h1
          have hinner : ∀ us vs : List (String × CtyValue),
              (∀ p ∈ us, sizeOf p.2 < n) → deepKnownAttrs us = true →
              deepKnownAttrs vs = true →
              us.map Prod.fst = vs.map Prod.fst →
              ctyEqAttrs us vs = some (specStructEqAttrs us vs) := by
            intro us
            induction us with
            | nil =>
              intro vs _ _ _ hk
              cases vs with
              | nil => simp [ctyEqAttrs, specStructEqAttrs]
              | cons q qs => simp at hk
            | cons p ps ihl =>
              intro vs hszs hdu hdv hk
              obtain ⟨k, u⟩ := p
              cases vs with
              | nil => simp at hk
              | cons q qs =>
                obtain ⟨k', v⟩ := q
                simp only [List.map_cons, List.cons.injEq] at hk
                simp only [deepKnownAttrs, Bool.and_eq_true] at hdu hdv
                have h1 := ih u v (hszs (k, u) (by simp)) hdu.1 hdv.1
                have h2 := ihl qs
                  (fun p hp => hszs p (List.mem_cons_of_mem _ hp)) hdu.2
                  hdv.2 hk.2
                simp only [ctyEqAttrs, specStructEqAttrs, h1, hk.1,
                  beq_self_eq_true, Bool.true_and]
                cases hsp : specStructEq u v with
                | false => simp
                | true => simp [h2]
          simp only [deepKnown] at ha hb
          have hxs : ∀ p ∈ xs, sizeOf p.2 < (n : Nat) := by
            intro p hp
            obtain ⟨k, u⟩ := p
            show sizeOf u < n
            have := attr_sizeOf_lt hp
            simp only [CtyValue.object.sizeOf_spec] at hsz
            omega
          simp [ctyEq, specStructEq, hka, hkb, hty, isNullV,
            hinner xs ys hxs ha hb hkeys]
      | mapV ta xs =>
        cases b with
        | unknown tb => simp [deepKnown] at hb
        | nullV tb => simp [ctyEq, specStructEq, hka, hkb, hty, isNullV]
        | boolV y => simp [typeOf, tyBEq] at hty
        | number y => simp [typeOf, tyBEq] at hty
        | stringV y => simp [typeOf, tyBEq] at hty
        | listV tb ys => simp [typeOf, tyBEq] at hty
        | object ys => simp [typeOf, tyBEq] at hty
        | mapV tb ys =>
          have hinner : ∀ us : List (String × CtyValue),
              (∀ p ∈ us, sizeOf p.2 < n) → deepKnownAttrs us = true →
              ctyEqMap us ys = some (specStructEqMap us ys) := by
            intro us
            induction us with
            | nil => simp [ctyEqMap, specStructEqMap]
            | cons p ps ihl =>
              intro hszs hdu
              obtain ⟨k, u⟩ := p
              simp only [deepKnownAttrs, Bool.and_eq_true] at hdu
              cases hl : lookupAttr ys k with
              | none => simp [ctyEqMap, specStructEqMap, hl]
              | some y =>
                have hdy : deepKnown y = true := by
                  have : deepKnownAttrs ys = true := by
                    simpa [deepKnown] using hb
                  exact deepKnownAttrs_lookup this hl
                have h1 := ih u y (hszs (k, u) (by simp)) hdu.1 hdy
                have h2 := ihl
                  (fun p hp => hszs p (List.mem_cons_of_mem _ hp)) hdu.2
                simp only [ctyEqMap, specStructEqMap, hl, h1]
                cases hsp : specStructEq u y with
                | false => simp
                | true => simp [h2]
          simp only [deepKnown] at ha
          have hxs : ∀ p ∈ xs, sizeOf p.2 < (n : Nat) := by
            intro p hp
            obtain ⟨k, u⟩ := p
            show sizeOf u < n
            have := attr_sizeOf_lt hp
            simp only [CtyValue.mapV.sizeOf_spec] at hsz
            omega
          by_cases hlen : xs.length = ys.length
          case pos =>
            simp [ctyEq, specStructEq, hka, hkb, hty, isNullV, hlen,
              hinner xs hxs ha]
          case neg =>
            simp [ctyEq, specStructEq, hka, hkb, hty, isNullV, hlen]

theorem ctyEq_spec (a b : CtyValue) (ha : deepKnown a = true)
    (hb : deepKnown b = true) : ctyEq a b = some (specStructEq a b) :=
  ctyEq_spec_aux (sizeOf a + 1) a b (by omega) ha hb

theorem convertVList_deepKnown_aux
    (n : Nat)
    (ih : ∀ (v : CtyValue) (want : CtyType) (c : CtyValue), sizeOf v < n →
      convertV v want = Except.ok c → deepKnown v = true →
      deepKnown c = true)
    (b : CtyType) :
    ∀ us vs : List CtyValue, (∀ u ∈ us, sizeOf u < n) →
      convertVList us b = .ok vs → deepKnownList us = true →
      deepKnownList vs = true := by
  intro us
  induction us with
  | nil =>
    intro vs _ hcv _
    simp [convertVList] at hcv
    subst hcv
    simp [deepKnownList]
  | cons u us' ihl =>
    intro vs hszs hcv hdl
    simp only [deepKnownList, Bool.and_eq_true] at hdl
    rw [convertVList.eq_def] at hcv
    cases hcu : convertV u b with
    | error e => simp [hcu] at hcv
    | ok y =>
      cases hrest : convertVList us' b with
      | error e => simp [hcu, hrest] at hcv
      | ok ys' =>
        simp only [hcu, hrest] at hcv
        cases hcv
        have hy := ih u b y (hszs u (by simp)) hcu hdl.1
        have hys := ihl ys' (fun u hu => hszs u (List.mem_cons_of_mem _ hu))
          hrest hdl.2
        simp [deepKnownList, hy, hys]

theorem convertV_deepKnown_aux :
    ∀ n : Nat, ∀ v : CtyValue, ∀ want : CtyType, ∀ c : CtyValue,
      sizeOf v < n → convertV v want = Except.ok c → deepKnown v = true →
      deepKnown c = true := by
  intro n
  induction n with
  | zero =>
    intro v want c h
    omega
  | succ n ih =>
    intro v want c hsz h hd
    rw [convertV.eq_def] at h
    split at h
    · cases h
      exact hd
    · split at h
      · simp at h
      · split at h
        · cases h
          simp [deepKnown]
        · simp [deepKnown] at hd
        · cases h
          simp [deepKnown]
        · cases h
          simp [deepKnown]
        · split at h
          · cases h
            simp [deepKnown]
          · simp at h
        · split at h
          · cases h
            simp [deepKnown]
          · split at h
            · cases h
              simp [deepKnown]
            · simp at h
        · rename_i ty xs b hne hco
          cases hcl : convertVList xs b with
          | error e => simp [hcl] at h
          | ok ys =>
            simp only [hcl] at h
            cases h
            simp only [deepKnown] at hd ⊢
            have hxs : ∀ u ∈ xs, sizeOf u < n := by
              intro u hu
              have := elem_sizeOf_lt_list hu ty
              omega
            exact convertVList_deepKnown_aux n ih b xs ys hxs hcl hd
        · simp at h

theorem convertV_deepKnown (v : CtyValue) (want : CtyType) (c : CtyValue)
    (h : convertV v want = Except.ok c) (hd : deepKnown v = true) :
    deepKnown c = true :=
  convertV_deepKnown_aux (sizeOf v + 1) v want c (by omega) h hd

theorem compareLoop_spec (got : CtyValue) (want : List CtyValue)
    (hg : deepKnown got = true) (hw : ∀ w ∈ want, deepKnown w = true) :
    compareLoop got want = .ok (specAny got want) := by
  induction want with
  | nil => simp [compareLoop, specAny]
  | cons w rest ih =>
    have hw1 : deepKnown w = true := hw w (by simp)
    have hrest := ih fun x hx => hw x (List.mem_cons_of_mem _ hx)
    cases hcv : convertV got (typeOf w) with
    | error e =>
      simp [compareLoop, specAny, hcv, List.any_cons] at hrest ⊢
      exact hrest
    | ok cnv =>
      have hcnvk : deepKnown cnv = true := convertV_deepKnown _ _ _ hcv hg
      have heq := ctyEq_spec w cnv hw1 hcnvk
      cases hsp : specStructEq w cnv with
      | true => simp [compareLoop, specAny, hcv, heq, hsp, List.any_cons]
      | false =>
        simp [compareLoop, specAny, hcv, heq, hsp, List.any_cons] at hrest ⊢
        exact hrest

theorem specAny_iff (got : CtyValue) (want : List CtyValue) :
    specAny got want = true ↔
      ∃ w ∈ want, ∃ c, convertV got (typeOf w) = Except.ok c ∧
        specStructEq w c = true := by
  rw [specAny, List.any_eq_true]
  constructor
  · rintro ⟨w, hw, hp⟩
    refine ⟨w, hw, ?_⟩
    cases hcv : convertV got (typeOf w) with
    | error e =>
      rw [hcv] at hp
      simp at hp
    | ok c =>
      rw [hcv] at hp
      exact ⟨c, rfl, hp⟩
  · rintro ⟨w, hw, c, hcv, hsp⟩
    refine ⟨w, hw, ?_⟩
    rw [hcv]
    exact hsp

theorem isOneOf_err_none (got : CtyValue) (want : List CtyValue) :
    ∀ b m e, IsOneOf got want = .ok (b, m, e) → e = none := by
  intro b m e h
  rw [IsOneOf] at h
  cases hc : compareResults got want with
  | panics pm => simp [hc] at h
  | ok cb =>
    cases cb with
    | true =>
      simp [hc] at h
      exact h.2.2.symm
    | false =>
      simp only [hc] at h
      cases ha : fmtCty got with
      | panics pm => simp [ha] at h
      | ok sa =>
        cases hl : listValGo want with
        | panics pm => simp [ha, hl] at h
        | ok lv =>
          cases hs : fmtCty lv with
          | panics pm => simp [ha, hl, hs] at h
          | ok se =>
            simp [ha, hl, hs] at h
            exact h.2.2.symm

/-! The C3 claim theorems -/

/-- C3 counterexample: the integral number 2 and its string literal "2"
ARE compatible kinds under the code's conversion step (cty `convert` does
number→string and string→number), so `IsOneOf` passes in both directions,
where the claim says they never match. -/
theorem c3_counterexample :
    IsOneOf (.number 2) [.stringV "2"] = .ok (true, "", none) ∧
    IsOneOf (.stringV "2") [.number 2] = .ok (true, "", none) := by
  constructor <;>
    (simp [IsOneOf, compareResults, compareLoop, convertV, convOk, ctyEq,
      tyBEq, typeOf, isKnownV, isNullV, goParseNumber, isDigitB,
      digitsVal] <;> rfl)

/-- C3 amended: for fully-known actual and expected values, `IsOneOf`
passes iff the actual value is not null and, after attempting conversion
to each candidate's kind in turn — where an integral number and its
string literal ARE compatible kinds (number↔string conversions are
attempted, alongside bool↔string and elementwise list conversions) — the
converted value structurally equals at least one expected value; a
candidate whose kind cannot be converted to is silently skipped and the
next candidate is tried, and the function never reports an error (its
error component is always nil on any normal return). -/
theorem c3_membership_conversion (got : CtyValue) (want : List CtyValue)
    (hg : deepKnown got = true) (hw : ∀ w ∈ want, deepKnown w = true) :
    (IsOneOf got want = .ok (true, "", none) ↔
      isNullV got = false ∧
        ∃ w ∈ want, ∃ c, convertV got (typeOf w) = Except.ok c ∧
          specStructEq w c = true) ∧
    (∀ b m e, IsOneOf got want = .ok (b, m, e) → e = none) := by
  refine ⟨?_, isOneOf_err_none got want⟩
  have hkg := isKnownV_of_deepKnown hg
  by_cases hng : isNullV got = true
  case pos =>
    have hc := compareResults_unknown_null got want (Or.inr hng)
    constructor
    · intro h
      simp only [IsOneOf, hc] at h
      cases ha : fmtCty got with
      | panics pm => simp [ha] at h
      | ok sa =>
        cases hl : listValGo want with
        | panics pm => simp [ha, hl] at h
        | ok lv =>
          cases hs : fmtCty lv with
          | panics pm => simp [ha, hl, hs] at h
          | ok se => simp [ha, hl, hs] at h
    · rintro ⟨hn, -⟩
      rw [hng] at hn
      cases hn
  case neg =>
    have hnf : isNullV got = false := by
      cases hv : isNullV got
      · rfl
      · exact absurd hv hng
    have hcmp : compareResults got want = .ok (specAny got want) := by
      simp [compareResults, hkg, hnf, compareLoop_spec got want hg hw]
    constructor
    · intro h
      refine ⟨hnf, (specAny_iff got want).mp ?_⟩
      cases hv : specAny got want
      · rw [hv] at hcmp
        simp only [IsOneOf, hcmp] at h
        cases ha : fmtCty got with
        | panics pm => simp [ha] at h
        | ok sa =>
          cases hl : listValGo want with
          | panics pm => simp [ha, hl] at h
          | ok lv =>
            cases hs : fmtCty lv with
            | panics pm => simp [ha, hl, hs] at h
            | ok se => simp [ha, hl, hs] at h
      · rfl
    · rintro ⟨-, hex⟩
      have hv : specAny got want = true := (specAny_iff got want).mpr hex
      rw [hv] at hcmp
      simp [IsOneOf, hcmp]

/-- Witness for C3's amended theorem: the number 2 against the expected
set containing the string "2". -/
theorem c3_membership_conversion_witness :
    deepKnown (.number 2) = true ∧
    (∀ w ∈ [CtyValue.stringV "2"], deepKnown w = true) ∧
    (isNullV (.number 2) = false ∧
      ∃ w ∈ [CtyValue.stringV "2"], ∃ c,
        convertV (.number 2) (typeOf w) = Except.ok c ∧
          specStructEq w c = true) :=
  ⟨by simp [deepKnown],
   fun w hw => by
     simp at hw
     subst hw
     simp [deepKnown],
   ((c3_membership_conversion (.number 2) [.stringV "2"] (by simp [deepKnown])
       (fun w hw => by
         simp at hw
         subst hw
         simp [deepKnown])).1).mp
     (by simp [IsOneOf, compareResults, compareLoop, convertV, convOk, ctyEq,
       tyBEq, typeOf, isKnownV, isNullV] <;> rfl)⟩

/-! ## C2 — wildcard mapping and error propagation -/

theorem wildcardLoop_nil_rem (elems : List CtyValue) :
    wildcardLoop elems [] = .ok elems := by
  induction elems with
  | nil => simp [wildcardLoop]
  | cons v rest ih =>
    rw [wildcardLoop.eq_def]
    simp [ih]

theorem wildcardLoop_forall2 {rem : List Char} (hrem : rem ≠ [])
    {elems results : List CtyValue}
    (h : List.Forall₂ (fun v r => QueryCty v rem = .ok r) elems results) :
    wildcardLoop elems rem = .ok results := by
  induction h with
  | nil => simp [wildcardLoop]
  | cons hhead htail ih =>
    rw [wildcardLoop.eq_def]
    simp [hrem, hhead, ih]

theorem wildcardLoop_ok_forall2 {rem : List Char} (hrem : rem ≠ []) :
    ∀ {elems results : List CtyValue},
      wildcardLoop elems rem = .ok results →
      List.Forall₂ (fun v r => QueryCty v rem = .ok r) elems results := by
  intro elems
  induction elems with
  | nil =>
    intro results h
    simp [wildcardLoop] at h
    subst h
    exact .nil
  | cons v rest ih =>
    intro results h
    rw [wildcardLoop.eq_def] at h
    simp only [hrem, if_neg, dite_false] at h
    cases hv : QueryCty v rem with
    | error e => simp [hv] at h
    | ok q =>
      cases hrest : wildcardLoop rest rem with
      | error e => simp [hv, hrest] at h
      | ok qs =>
        simp [hv, hrest] at h
        subst h
        exact .cons hv (ih hrest)

theorem wildcardLoop_error {rem : List Char} (hrem : rem ≠ [])
    (pre : List CtyValue) (v : CtyValue) (post : List CtyValue) (e : QErr)
    (hok : ∀ u ∈ pre, ∃ r, QueryCty u rem = .ok r)
    (he : QueryCty v rem = .error e) :
    wildcardLoop (pre ++ v :: post) rem = .error e := by
  induction pre with
  | nil =>
    simp only [List.nil_append]
    rw [wildcardLoop.eq_def]
    simp [hrem, he]
  | cons u pre' ih =>
    obtain ⟨r, hr⟩ := hok u (by simp)
    have ih' := ih fun x hx => hok x (List.mem_cons_of_mem _ hx)
    simp only [List.cons_append]
    rw [wildcardLoop.eq_def]
    simp [hrem, hr, ih']

theorem listValQ_ok (bt : CtyType) (vals : List CtyValue) (hne : vals ≠ [])
    (hty : ∀ v ∈ vals, typeOf v = bt) :
    listValQ vals = .ok (.listV bt vals) := by
  cases vals with
  | nil => exact absurd rfl hne
  | cons v rest =>
    have h1 : typeOf v = bt := hty v (by simp)
    have h2 : rest.all (fun w => tyBEq (typeOf w) (typeOf v)) = true := by
      rw [List.all_eq_true]
      intro w hw
      exact (tyBEq_iff _ _).mpr
        ((hty w (List.mem_cons_of_mem _ hw)).trans h1.symm)
    simp only [listValQ]
    rw [if_pos h2, h1]

theorem queryCty_bar (a : List (String × CtyValue)) (b : CtyValue)
    (h : lookupAttr a "bar" = some b) :
    QueryCty (.object a) ['b', 'a', 'r'] = .ok b := by
  simp [QueryCty, nextQuerySegment, cutDot, querySegmentPertainsToList,
    goAtoi, isDigitB, typeOf, isObjectType, isMapType, attributeTypes,
    lookupAttr_attrsTypes, getAttrGo, h,
    show String.mk ['b', 'a', 'r'] = "bar" from rfl]

/-- C2 counterexample: over the empty list (N = 0, all elements vacuously
objects containing `bar`), evaluating `foo.#.bar` does not return a List
of length 0 — the wildcard branch hands the empty result slice to
`cty.ListVal`, which panics. -/
theorem c2_counterexample :
    QueryCty (.object [("foo", .listV (.object [("bar", .string)]) [])])
      "foo.#.bar".toList
      = .error (.panics "must not call ListVal with empty slice") := by
  simp [QueryCty, queryList, wildcardLoop, nextQuerySegment, cutDot,
    querySegmentPertainsToList, goAtoi, isDigitB, typeOf, attrsTypes,
    isObjectType, isMapType, isListType, attributeTypes, lookupAttr,
    getAttrGo, listValQ]

/-- C2 amended: over a NONEMPTY list of N objects each containing field
`bar` (with the gathered `bar` values sharing one type, as cty list
elements must), `foo.#.bar` returns a List of length N whose i-th element
is the i-th object's `bar` value, order preserved; and in the wildcard
loop, if resolving the remaining path fails on an element whose
predecessors all succeed, the whole evaluation returns exactly that
element's error, with no partial aggregation.  For N = 0 the evaluation
panics in `cty.ListVal` instead of producing an empty List. -/
theorem c2_wildcard_map_and_propagate :
    (∀ (lt bt : CtyType) (objs : List (List (String × CtyValue)))
        (bars : List CtyValue),
      objs ≠ [] →
      List.Forall₂ (fun a b => lookupAttr a "bar" = some b) objs bars →
      (∀ b ∈ bars, typeOf b = bt) →
      QueryCty (.object [("foo", .listV lt (objs.map CtyValue.object))])
          "foo.#.bar".toList
        = .ok (.listV bt bars) ∧ bars.length = objs.length) ∧
    (∀ (ty : CtyType) (seg rem : List Char) (pre : List CtyValue)
        (v : CtyValue) (post : List CtyValue) (e : QErr),
      rem ≠ [] →
      (∀ u ∈ pre, ∃ r, QueryCty u rem = .ok r) →
      QueryCty v rem = .error e →
      queryList (.listV ty (pre ++ v :: post)) (-1) seg rem = .error e) := by
  constructor
  · intro lt bt objs bars hne hf2 hbt
    have hlen : bars.length = objs.length := hf2.length_eq.symm
    have hbarsne : bars ≠ [] := by
      intro hb
      subst hb
      cases objs with
      | nil => exact hne rfl
      | cons o os => cases hf2
    have hf2' : List.Forall₂ (fun v r => QueryCty v ['b', 'a', 'r'] = .ok r)
        (objs.map CtyValue.object) bars := by
      clear hne hbt hlen hbarsne
      induction hf2 with
      | nil => exact .nil
      | cons hhead htail ih =>
        exact .cons (queryCty_bar _ _ hhead) ih
    have hloop : wildcardLoop (objs.map CtyValue.object) ['b', 'a', 'r']
        = .ok bars := wildcardLoop_forall2 (by simp) hf2'
    refine ⟨?_, hlen⟩
    simp [QueryCty, queryList, nextQuerySegment, cutDot,
      querySegmentPertainsToList, goAtoi, isDigitB, typeOf, attrsTypes,
      isObjectType, isMapType, isListType, attributeTypes, lookupAttr,
      getAttrGo, hloop, listValQ_ok bt bars hbarsne hbt,
      show String.mk ['f', 'o', 'o'] = "foo" from rfl]
  · intro ty seg rem pre v post e hrem hok he
    have hl := wildcardLoop_error hrem pre v post e hok he
    simp [queryList, isListType, typeOf, hl]

/-- Witness for C2's amended theorem: two objects with `bar` values 1 and
2, and a one-element propagation case. -/
theorem c2_wildcard_map_and_propagate_witness :
    (QueryCty (.object [("foo", .listV (.object [("bar", .number)])
        [.object [("bar", .number 1)], .object [("bar", .number 2)]])])
        "foo.#.bar".toList
      = .ok (.listV .number [.number 1, .number 2]) ∧
      ([CtyValue.number 1, CtyValue.number 2] : List CtyValue).length = 2) ∧
    queryList (.listV .string [CtyValue.stringV "s"]) (-1) ['#'] ['x']
      = .error .notObjectOrMap :=
  ⟨by
    have h := (c2_wildcard_map_and_propagate.1 (.object [("bar", .number)])
      .number [[("bar", .number 1)], [("bar", .number 2)]]
      [.number 1, .number 2] (by simp)
      (.cons (by simp [lookupAttr]) (.cons (by simp [lookupAttr]) .nil))
      (by
        intro b hb
        simp at hb
        rcases hb with hb | hb <;> subst hb <;> simp [typeOf]))
    exact ⟨h.1, h.2⟩,
   c2_wildcard_map_and_propagate.2 .string ['#'] ['x'] [] (.stringV "s") []
     .notObjectOrMap (by simp) (by intro u hu; cases hu)
     (by simp [QueryCty, nextQuerySegment, cutDot, querySegmentPertainsToList,
       goAtoi, isDigitB, typeOf, isObjectType, isMapType])⟩

/-! ## C4 — error kinds and their structural causes -/

theorem queryList_notList {v : CtyValue} (i : Int) (seg rem : List Char)
    (h : isListType (typeOf v) = false) :
    queryList v i seg rem = .error (.notList seg) := by
  rw [queryList.eq_def]
  simp [h]

theorem queryList_wild_error {ty : CtyType} {elems : List CtyValue}
    (seg : List Char) {rem : List Char} {e : QErr}
    (h : wildcardLoop elems rem = .error e) :
    queryList (.listV ty elems) (-1) seg rem = .error e := by
  rw [queryList.eq_def]
  simp [isListType, typeOf, h]

theorem queryList_wild_ok {ty : CtyType} {elems : List CtyValue}
    (seg : List Char) {rem : List Char} {rs : List CtyValue}
    (h : wildcardLoop elems rem = .ok rs) :
    queryList (.listV ty elems) (-1) seg rem = listValQ rs := by
  rw [queryList.eq_def]
  simp [isListType, typeOf, h]

theorem queryList_index {ty : CtyType} {elems : List CtyValue} {i : Int}
    (seg rem : List Char) {u : CtyValue} (hne : i ≠ -1) (hge : 0 ≤ i)
    (hlt : i < (elems.length : Int)) (hg : elems.get? i.toNat = some u) :
    queryList (.listV ty elems) i seg rem
      = if rem = [] then .ok u else QueryCty u rem := by
  rw [queryList.eq_def]
  rw [if_neg (by simp [isListType, typeOf])]
  simp only [hne, if_false, hg]
  rw [if_neg (by omega), if_neg (by omega)]
  by_cases hr : rem = [] <;> simp [hr]

theorem getAttrGo_err_panics {v : CtyValue} {name : String} {e : QErr}
    (h : getAttrGo v name = .error e) : ∃ m, e = .panics m := by
  rw [getAttrGo.eq_def] at h
  split at h
  · split at h
    · exact absurd h (by simp)
    · exact ⟨_, (Except.error.inj h).symm⟩
  · split at h
    · exact absurd h (by simp)
    · exact ⟨_, (Except.error.inj h).symm⟩
  · exact ⟨_, (Except.error.inj h).symm⟩
  · exact ⟨_, (Except.error.inj h).symm⟩

theorem getAttrGo_ok_fieldDescend {v : CtyValue} {name : String}
    {u : CtyValue} (h : getAttrGo v name = .ok u) :
    fieldDescend v name = some u := by
  rw [getAttrGo.eq_def] at h
  split at h
  · rename_i atys
    cases hl : lookupAttr atys name with
    | none => simp [hl] at h
    | some t =>
      simp [hl] at h
      simp [fieldDescend, hl, h]
  · rename_i attrs
    cases hl : lookupAttr attrs name with
    | none => simp [hl] at h
    | some t =>
      simp [hl] at h
      simp [fieldDescend, hl, h]
  · simp at h
  · simp at h

theorem fieldDescend_getAttrGo {v : CtyValue} {name : String} {u : CtyValue}
    (h : fieldDescend v name = some u) : getAttrGo v name = .ok u := by
  cases v with
  | object attrs => simp [fieldDescend] at h; simp [getAttrGo, h]
  | unknown ty =>
    cases ty with
    | object atys =>
      simp [fieldDescend] at h
      obtain ⟨t, hl, hu⟩ := h
      simp [getAttrGo, hl, hu]
    | bool => simp [fieldDescend] at h
    | number => simp [fieldDescend] at h
    | string => simp [fieldDescend] at h
    | list t => simp [fieldDescend] at h
    | map t => simp [fieldDescend] at h
  | nullV ty => simp [fieldDescend] at h
  | boolV b => simp [fieldDescend] at h
  | number n => simp [fieldDescend] at h
  | stringV s => simp [fieldDescend] at h
  | listV t es => simp [fieldDescend] at h
  | mapV t es => simp [fieldDescend] at h

theorem fieldDescend_object_type {v : CtyValue} {name : String} {u : CtyValue}
    (h : fieldDescend v name = some u) :
    ∃ atys, typeOf v = .object atys ∧
      ∃ t, lookupAttr atys name = some t := by
  cases v with
  | object attrs =>
    simp [fieldDescend] at h
    exact ⟨attrsTypes attrs, rfl, typeOf u, by
      rw [lookupAttr_attrsTypes, h]
      rfl⟩
  | unknown ty =>
    cases ty with
    | object atys =>
      simp [fieldDescend] at h
      obtain ⟨t, hl, hu⟩ := h
      exact ⟨atys, rfl, t, hl⟩
    | bool => simp [fieldDescend] at h
    | number => simp [fieldDescend] at h
    | string => simp [fieldDescend] at h
    | list t => simp [fieldDescend] at h
    | map t => simp [fieldDescend] at h
  | nullV ty => simp [fieldDescend] at h
  | boolV b => simp [fieldDescend] at h
  | number n => simp [fieldDescend] at h
  | stringV s => simp [fieldDescend] at h
  | listV t es => simp [fieldDescend] at h
  | mapV t es => simp [fieldDescend] at h

theorem queryCty_field_step {v : CtyValue} {q : List Char} {u : CtyValue}
    (hp : (querySegmentPertainsToList (nextQuerySegment q).1).2 = false)
    (hr : (nextQuerySegment q).2 ≠ [])
    (hd : fieldDescend v (String.mk (nextQuerySegment q).1) = some u) :
    QueryCty v q = QueryCty u (nextQuerySegment q).2 := by
  obtain ⟨atys, hty, t, hl⟩ := fieldDescend_object_type hd
  rw [QueryCty.eq_def]
  rw [dif_neg (by simp [hp])]
  rw [if_neg (by simp [hty, isObjectType])]
  simp only [hty, attributeTypes, hl]
  rw [dif_neg hr]
  rw [fieldDescend_getAttrGo hd]

theorem notFoundCause_fires {v : CtyValue} {q : List Char}
    (h : NotFoundCause v q) : QueryCty v q = .error (.attrNotFound q) := by
  obtain ⟨hp, atys, hty, hl⟩ := h
  rw [QueryCty.eq_def]
  rw [dif_neg (by simp [hp])]
  rw [if_neg (by simp [hty, isObjectType])]
  simp only [hty, attributeTypes, hl]

theorem tmFieldCause_fires {v : CtyValue} {q : List Char}
    (h : TMFieldCause v q) : QueryCty v q = .error .notObjectOrMap := by
  obtain ⟨hp, ho, hm⟩ := h
  rw [QueryCty.eq_def, dif_neg (by simp [hp])]
  rw [if_pos (by simp [ho, hm])]

theorem tmListCause_fires {v : CtyValue} {q : List Char}
    (h : TMListCause v q) :
    QueryCty v q = .error (.notList (nextQuerySegment q).1) := by
  obtain ⟨hp, hl⟩ := h
  cases hpair : querySegmentPertainsToList (nextQuerySegment q).1 with
  | mk i b =>
    rw [QueryCty.eq_def, dif_pos (by simp [hpair] at hp ⊢; exact hp)]
    exact queryList_notList _ _ _ hl

theorem queryCty_index_step {ty : CtyType} {elems : List CtyValue}
    {q : List Char} {i : Int} {u : CtyValue}
    (hp : querySegmentPertainsToList (nextQuerySegment q).1 = (i, true))
    (hne : i ≠ -1) (hge : 0 ≤ i) (hlt : i < (elems.length : Int))
    (hr : (nextQuerySegment q).2 ≠ [])
    (hg : elems.get? i.toNat = some u) :
    QueryCty (.listV ty elems) q = QueryCty u (nextQuerySegment q).2 := by
  rw [QueryCty.eq_def, dif_pos (by simp [hp])]
  simp only [hp]
  rw [queryList_index _ _ hne hge hlt hg, if_neg hr]

theorem queryCty_wild_error {ty : CtyType} {pre : List CtyValue}
    {u : CtyValue} {post : List CtyValue} {q : List Char} {e : QErr}
    (hp : querySegmentPertainsToList (nextQuerySegment q).1 = (-1, true))
    (hr : (nextQuerySegment q).2 ≠ [])
    (hok : ∀ w ∈ pre, ∃ r, QueryCty w (nextQuerySegment q).2 = .ok r)
    (he : QueryCty u (nextQuerySegment q).2 = .error e) :
    QueryCty (.listV ty (pre ++ u :: post)) q = .error e := by
  rw [QueryCty.eq_def, dif_pos (by simp [hp])]
  simp only [hp]
  exact queryList_wild_error _ (wildcardLoop_error hr pre u post e hok he)

theorem reaches_error_propagates {v : CtyValue} {q : List Char}
    {w : CtyValue} {p : List Char} {e : QErr}
    (hr : Reaches v q w p) (he : QueryCty w p = .error e) :
    QueryCty v q = .error e := by
  induction hr with
  | refl => exact he
  | fieldStep v1 q1 u w1 p1 hp hrem hd htl ih =>
    rw [queryCty_field_step hp hrem hd]
    exact ih he
  | indexStep ty elems q1 i u w1 p1 hp hne hge hlt hrem hg htl ih =>
    rw [queryCty_index_step hp hne hge hlt hrem hg]
    exact ih he
  | wildStep ty pre u post q1 w1 p1 hp hrem hok htl ih =>
    exact queryCty_wild_error hp hrem hok (ih he)

theorem wildcardLoop_error_inv :
    ∀ {elems : List CtyValue} {rem : List Char} {e : QErr},
      wildcardLoop elems rem = .error e →
      rem ≠ [] ∧ ∃ pre u post, elems = pre ++ u :: post ∧
        (∀ w ∈ pre, ∃ r, QueryCty w rem = .ok r) ∧
        QueryCty u rem = .error e := by
  intro elems
  induction elems with
  | nil =>
    intro rem e h
    simp [wildcardLoop] at h
  | cons v rest ih =>
    intro rem e h
    by_cases hrem : rem = []
    · subst hrem
      rw [wildcardLoop_nil_rem] at h
      simp at h
    · rw [wildcardLoop.eq_def] at h
      simp only [dif_neg hrem] at h
      cases hv : QueryCty v rem with
      | error eh =>
        rw [hv] at h
        refine ⟨hrem, [], v, rest, rfl, by simp, ?_⟩
        rw [hv]
        simpa using h
      | ok qq =>
        rw [hv] at h
        cases hrest : wildcardLoop rest rem with
        | error eh =>
          rw [hrest] at h
          obtain ⟨-, pre, u, post, heq, hpre, hu⟩ := ih hrest
          refine ⟨hrem, v :: pre, u, post, by simp [heq], ?_, ?_⟩
          · intro w hw
            rcases List.mem_cons.mp hw with hw | hw
            · exact ⟨qq, hw ▸ hv⟩
            · exact hpre w hw
          · rw [hu]
            simpa using h
        | ok qs =>
          rw [hrest] at h
          simp at h

theorem listValQ_err_panics {vals : List CtyValue} {e : QErr}
    (h : listValQ vals = .error e) : ∃ m, e = .panics m := by
  rw [listValQ.eq_def] at h
  split at h
  · exact ⟨_, (Except.error.inj h).symm⟩
  · split at h
    · exact absurd h (by simp)
    · exact ⟨_, (Except.error.inj h).symm⟩

theorem queryList_oob {ty : CtyType} {elems : List CtyValue} {i : Int}
    (seg rem : List Char) (hne : i ≠ -1)
    (hge : (elems.length : Int) ≤ i) :
    queryList (.listV ty elems) i seg rem
      = .error (.indexOOB i elems.length) := by
  rw [queryList.eq_def]
  rw [if_neg (by simp [isListType, typeOf])]
  simp only [hne, if_false]
  rw [if_pos hge]

theorem queryList_negidx {ty : CtyType} {elems : List CtyValue} {i : Int}
    (seg rem : List Char) (hne : i ≠ -1) (hlt : i < 0) :
    queryList (.listV ty elems) i seg rem
      = .error (.panics "index out of range") := by
  rw [queryList.eq_def]
  rw [if_neg (by simp [isListType, typeOf])]
  simp only [hne, if_false]
  rw [if_neg (by omega), if_pos hlt]

theorem queryList_null_unknown {v : CtyValue} {i : Int} (seg rem : List Char)
    (hlist : isListType (typeOf v) = true)
    (hnc : ∀ (ty : CtyType) (elems : List CtyValue), v ≠ .listV ty elems) :
    queryList v i seg rem
      = .error (.panics "LengthInt on an unknown or null collection") := by
  rw [queryList.eq_def]
  rw [if_neg (by simp [hlist])]
  cases v with
  | listV ty elems => exact absurd rfl (hnc ty elems)
  | nullV ty => rfl
  | unknown ty => rfl
  | boolV b => rfl
  | number n => rfl
  | stringV s => rfl
  | object attrs => rfl
  | mapV ty es => rfl

theorem attributeTypes_some {t : CtyType} {atys : List (String × CtyType)}
    (h : attributeTypes t = some atys) : t = .object atys := by
  cases t <;> simp [attributeTypes] at h <;> simp [h]

theorem queryCty_err_causes_aux :
    ∀ n : Nat, ∀ q : List Char, ∀ v : CtyValue, q.length < n →
      (∀ s, QueryCty v q = .error (.attrNotFound s) →
        ∃ w p, Reaches v q w p ∧ NotFoundCause w p) ∧
      (QueryCty v q = .error .notObjectOrMap →
        ∃ w p, Reaches v q w p ∧ TMFieldCause w p) ∧
      (∀ s, QueryCty v q = .error (.notList s) →
        ∃ w p, Reaches v q w p ∧ TMListCause w p) := by
  intro n
  induction n with
  | zero =>
    intro q v h
    omega
  | succ n ih =>
    intro q v hlen
    by_cases hp : (querySegmentPertainsToList (nextQuerySegment q).1).2 = true
    case pos =>
      have hunf : QueryCty v q = queryList v
          (querySegmentPertainsToList (nextQuerySegment q).1).1
          (nextQuerySegment q).1 (nextQuerySegment q).2 := by
        rw [QueryCty.eq_def, dif_pos hp]
      by_cases hlist : isListType (typeOf v) = true
      case neg =>
        have hlist' : isListType (typeOf v) = false := by
          cases hv : isListType (typeOf v)
          · rfl
          · exact absurd hv hlist
        have hres : QueryCty v q
            = .error (.notList (nextQuerySegment q).1) := by
          rw [hunf]
          exact queryList_notList _ _ _ hlist'
        refine ⟨?_, ?_, ?_⟩
        · intro s h
          rw [hres] at h
          simp at h
        · intro h
          rw [hres] at h
          simp at h
        · intro s h
          exact ⟨v, q, .refl v q, hp, hlist'⟩
      case pos =>
        cases v with
        | boolV b => simp [typeOf, isListType] at hlist
        | number m => simp [typeOf, isListType] at hlist
        | stringV s0 => simp [typeOf, isListType] at hlist
        | object attrs => simp [typeOf, isListType] at hlist
        | mapV t0 es => simp [typeOf, isListType] at hlist
        | nullV t0 =>
          have hres : QueryCty (.nullV t0) q
              = .error (.panics "LengthInt on an unknown or null collection") := by
            rw [hunf]
            exact queryList_null_unknown _ _ hlist (by intro ty elems h; cases h)
          refine ⟨fun s h => ?_, fun h => ?_, fun s h => ?_⟩ <;>
            (rw [hres] at h; simp at h)
        | unknown t0 =>
          have hres : QueryCty (.unknown t0) q
              = .error (.panics "LengthInt on an unknown or null collection") := by
            rw [hunf]
            exact queryList_null_unknown _ _ hlist (by intro ty elems h; cases h)
          refine ⟨fun s h => ?_, fun h => ?_, fun s h => ?_⟩ <;>
            (rw [hres] at h; simp at h)
        | listV ty elems =>
          have hpair : querySegmentPertainsToList (nextQuerySegment q).1
              = ((querySegmentPertainsToList (nextQuerySegment q).1).1, true) := by
            rw [← hp]
          by_cases hwild :
            (querySegmentPertainsToList (nextQuerySegment q).1).1 = -1
          case pos =>
            have hpair' : querySegmentPertainsToList (nextQuerySegment q).1
                = (-1, true) := by
              rw [hpair, hwild]
            by_cases hrem : (nextQuerySegment q).2 = []
            case pos =>
              have hres : QueryCty (.listV ty elems) q = listValQ elems := by
                rw [hunf, hwild, hrem]
                exact queryList_wild_ok _ (wildcardLoop_nil_rem elems)
              refine ⟨fun s h => ?_, fun h => ?_, fun s h => ?_⟩ <;>
                · rw [hres] at h
                  obtain ⟨m, hm⟩ := listValQ_err_panics h
                  simp at hm
            case neg =>
              cases hloop : wildcardLoop elems (nextQuerySegment q).2 with
              | ok rs =>
                have hres : QueryCty (.listV ty elems) q = listValQ rs := by
                  rw [hunf, hwild]
                  exact queryList_wild_ok _ hloop
                refine ⟨fun s h => ?_, fun h => ?_, fun s h => ?_⟩ <;>
                  · rw [hres] at h
                    obtain ⟨m, hm⟩ := listValQ_err_panics h
                    simp at hm
              | error e0 =>
                have hres : QueryCty (.listV ty elems) q = .error e0 := by
                  rw [hunf, hwild]
                  exact queryList_wild_error _ hloop
                obtain ⟨-, pre, u, post, heq, hpre, hu⟩ :=
                  wildcardLoop_error_inv hloop
                have hrec := ih (nextQuerySegment q).2 u
                  (by have := nqs_snd_lt_of_pertains hp; omega)
                subst heq
                refine ⟨?_, ?_, ?_⟩
                · intro s h
                  rw [hres] at h
                  have he0 := Except.error.inj h
                  subst he0
                  obtain ⟨w, p, hre, hc⟩ := hrec.1 s hu
                  exact ⟨w, p,
                    .wildStep ty pre u post q w p hpair' hrem hpre hre, hc⟩
                · intro h
                  rw [hres] at h
                  have he0 := Except.error.inj h
                  subst he0
                  obtain ⟨w, p, hre, hc⟩ := hrec.2.1 hu
                  exact ⟨w, p,
                    .wildStep ty pre u post q w p hpair' hrem hpre hre, hc⟩
                · intro s h
                  rw [hres] at h
                  have he0 := Except.error.inj h
                  subst he0
                  obtain ⟨w, p, hre, hc⟩ := hrec.2.2 s hu
                  exact ⟨w, p,
                    .wildStep ty pre u post q w p hpair' hrem hpre hre, hc⟩
          case neg =>
            by_cases hoob : (elems.length : Int)
                ≤ (querySegmentPertainsToList (nextQuerySegment q).1).1
            case pos =>
              have hres : QueryCty (.listV ty elems) q
                  = .error (.indexOOB
                      (querySegmentPertainsToList (nextQuerySegment q).1).1
                      elems.length) := by
                rw [hunf]
                exact queryList_oob _ _ hwild hoob
              refine ⟨fun s h => ?_, fun h => ?_, fun s h => ?_⟩ <;>
                (rw [hres] at h; simp at h)
            case neg =>
              by_cases hneg :
                (querySegmentPertainsToList (nextQuerySegment q).1).1 < 0
              case pos =>
                have hres : QueryCty (.listV ty elems) q
                    = .error (.panics "index out of range") := by
                  rw [hunf]
                  exact queryList_negidx _ _ hwild hneg
                refine ⟨fun s h => ?_, fun h => ?_, fun s h => ?_⟩ <;>
                  (rw [hres] at h; simp at h)
              case neg =>
                have hge : 0 ≤
                    (querySegmentPertainsToList (nextQuerySegment q).1).1 := by
                  omega
                have hlt : (querySegmentPertainsToList (nextQuerySegment q).1).1
                    < (elems.length : Int) := by
                  omega
                have hidx :
                    ((querySegmentPertainsToList (nextQuerySegment q).1).1).toNat
                      < elems.length := by
                  omega
                obtain ⟨u, hg⟩ : ∃ u,
                    elems.get?
                      ((querySegmentPertainsToList
                        (nextQuerySegment q).1).1).toNat = some u :=
                  ⟨elems.get ⟨_, hidx⟩, List.get?_eq_get hidx⟩
                by_cases hrem : (nextQuerySegment q).2 = []
                case pos =>
                  have hres : QueryCty (.listV ty elems) q = .ok u := by
                    rw [hunf, queryList_index _ _ hwild hge hlt hg,
                      if_pos hrem]
                  refine ⟨fun s h => ?_, fun h => ?_, fun s h => ?_⟩ <;>
                    (rw [hres] at h; simp at h)
                case neg =>
                  have hres : QueryCty (.listV ty elems) q
                      = QueryCty u (nextQuerySegment q).2 :=
                    queryCty_index_step hpair hwild hge hlt hrem hg
                  have hrec := ih (nextQuerySegment q).2 u
                    (by have := nqs_snd_lt_of_pertains hp; omega)
                  refine ⟨?_, ?_, ?_⟩
                  · intro s h
                    rw [hres] at h
                    obtain ⟨w, p, hre, hc⟩ := hrec.1 s h
                    exact ⟨w, p, .indexStep ty elems q _ u w p hpair hwild
                      hge hlt hrem hg hre, hc⟩
                  · intro h
                    rw [hres] at h
                    obtain ⟨w, p, hre, hc⟩ := hrec.2.1 h
                    exact ⟨w, p, .indexStep ty elems q _ u w p hpair hwild
                      hge hlt hrem hg hre, hc⟩
                  · intro s h
                    rw [hres] at h
                    obtain ⟨w, p, hre, hc⟩ := hrec.2.2 s h
                    exact ⟨w, p, .indexStep ty elems q _ u w p hpair hwild
                      hge hlt hrem hg hre, hc⟩
    case neg =>
      have hp' : (querySegmentPertainsToList (nextQuerySegment q).1).2
          = false := by
        cases hv : (querySegmentPertainsToList (nextQuerySegment q).1).2
        · rfl
        · exact absurd hv hp
      by_cases hobj : isObjectType (typeOf v) = true
          ∨ isMapType (typeOf v) = true
      case neg =>
        have hres : QueryCty v q = .error .notObjectOrMap := by
          rw [QueryCty.eq_def, dif_neg (by simp [hp']), if_pos hobj]
        have hOf : isObjectType (typeOf v) = false := by
          cases hv : isObjectType (typeOf v)
          · rfl
          · exact absurd (Or.inl hv) hobj
        have hMf : isMapType (typeOf v) = false := by
          cases hv : isMapType (typeOf v)
          · rfl
          · exact absurd (Or.inr hv) hobj
        refine ⟨?_, ?_, ?_⟩
        · intro s h
          rw [hres] at h
          simp at h
        · intro h
          exact ⟨v, q, .refl v q, hp', hOf, hMf⟩
        · intro s h
          rw [hres] at h
          simp at h
      case pos =>
        cases hat : attributeTypes (typeOf v) with
        | none =>
          have hres : QueryCty v q
              = .error (.panics "AttributeTypes on non-object Type") := by
            rw [QueryCty.eq_def, dif_neg (by simp [hp']),
              if_neg (not_not_intro hobj)]
            simp only [hat]
          refine ⟨fun s h => ?_, fun h => ?_, fun s h => ?_⟩ <;>
            (rw [hres] at h; simp at h)
        | some atys =>
          have hty : typeOf v = .object atys := attributeTypes_some hat
          cases hl : lookupAttr atys (String.mk (nextQuerySegment q).1) with
          | none =>
            have hres : QueryCty v q = .error (.attrNotFound q) := by
              rw [QueryCty.eq_def, dif_neg (by simp [hp']),
                if_neg (not_not_intro hobj)]
              simp only [hat, hl]
            refine ⟨?_, ?_, ?_⟩
            · intro s h
              exact ⟨v, q, .refl v q, hp', atys, hty, hl⟩
            · intro h
              rw [hres] at h
              simp at h
            · intro s h
              rw [hres] at h
              simp at h
          | some t0 =>
            by_cases hrem : (nextQuerySegment q).2 = []
            case pos =>
              have hres : QueryCty v q
                  = getAttrGo v (String.mk (nextQuerySegment q).1) := by
                rw [QueryCty.eq_def, dif_neg (by simp [hp']),
                  if_neg (not_not_intro hobj)]
                simp only [hat, hl]
                rw [dif_pos hrem]
              refine ⟨fun s h => ?_, fun h => ?_, fun s h => ?_⟩ <;>
                · rw [hres] at h
                  obtain ⟨m, hm⟩ := getAttrGo_err_panics h
                  simp at hm
            case neg =>
              cases hga : getAttrGo v (String.mk (nextQuerySegment q).1) with
              | error e0 =>
                have hres : QueryCty v q = .error e0 := by
                  rw [QueryCty.eq_def, dif_neg (by simp [hp']),
                    if_neg (not_not_intro hobj)]
                  simp only [hat, hl]
                  rw [dif_neg hrem, hga]
                obtain ⟨m, hm⟩ := getAttrGo_err_panics hga
                subst hm
                refine ⟨fun s h => ?_, fun h => ?_, fun s h => ?_⟩ <;>
                  (rw [hres] at h; simp at h)
              | ok u =>
                have hd := getAttrGo_ok_fieldDescend hga
                have hres : QueryCty v q = QueryCty u (nextQuerySegment q).2 :=
                  queryCty_field_step hp' hrem hd
                have hrec := ih (nextQuerySegment q).2 u
                  (by have := nqs_snd_lt_of_ne hrem; omega)
                refine ⟨?_, ?_, ?_⟩
                · intro s h
                  rw [hres] at h
                  obtain ⟨w, p, hre, hc⟩ := hrec.1 s h
                  exact ⟨w, p, .fieldStep v q u w p hp' hrem hd hre, hc⟩
                · intro h
                  rw [hres] at h
                  obtain ⟨w, p, hre, hc⟩ := hrec.2.1 h
                  exact ⟨w, p, .fieldStep v q u w p hp' hrem hd hre, hc⟩
                · intro s h
                  rw [hres] at h
                  obtain ⟨w, p, hre, hc⟩ := hrec.2.2 s h
                  exact ⟨w, p, .fieldStep v q u w p hp' hrem hd hre, hc⟩

/-- C4 amended: within a single evaluation, the not-found error arises
exactly when a Field segment is applied (at some evaluator-reached
subproblem) to an object-typed value whose type lacks that key; and a
type-mismatch error arises exactly when an Index/Wildcard segment is
applied to a non-list-typed value or a Field segment to a value that is
neither object- NOR MAP-typed — the kinds are never conflated.  (The
claim's "Field against any non-object" is corrected: a Field segment
against a map-kind value panics in `AttributeTypes` before either error
can be chosen.) -/
theorem c4_error_kind_characterization (v : CtyValue) (q : List Char) :
    ((∃ s, QueryCty v q = .error (.attrNotFound s)) ↔
      ∃ w p, Reaches v q w p ∧ NotFoundCause w p) ∧
    (isTMError (QueryCty v q) ↔
      ∃ w p, Reaches v q w p ∧ (TMFieldCause w p ∨ TMListCause w p)) := by
  have hfwd := queryCty_err_causes_aux (q.length + 1) q v (by omega)
  constructor
  · constructor
    · rintro ⟨s, h⟩
      exact hfwd.1 s h
    · rintro ⟨w, p, hre, hc⟩
      exact ⟨p, reaches_error_propagates hre (notFoundCause_fires hc)⟩
  · constructor
    · rintro (h | ⟨s, h⟩)
      · obtain ⟨w, p, hre, hc⟩ := hfwd.2.1 h
        exact ⟨w, p, hre, Or.inl hc⟩
      · obtain ⟨w, p, hre, hc⟩ := hfwd.2.2 s h
        exact ⟨w, p, hre, Or.inr hc⟩
    · rintro ⟨w, p, hre, hc | hc⟩
      · exact Or.inl (reaches_error_propagates hre (tmFieldCause_fires hc))
      · exact Or.inr ⟨_, reaches_error_propagates hre (tmListCause_fires hc)⟩

/-- C4 counterexample: the claim's reading — type-mismatch arises exactly
when an index/wildcard is applied to a non-list or a field to a
NON-OBJECT — fails on map-kind values: a field segment applied to a map
value satisfies the claimed cause, yet the evaluation panics in
`AttributeTypes` and no type-mismatch error arises. -/
theorem c4_counterexample :
    ¬(∀ (v : CtyValue) (q : List Char),
        isTMError (QueryCty v q) ↔
          ∃ w p, Reaches v q w p ∧
            (TMFieldCauseClaim w p ∨ TMListCause w p)) := by
  intro hclaim
  have hc : TMFieldCauseClaim (.mapV .string [("a", .stringV "x")]) ['a'] := by
    constructor
    · decide
    · simp [typeOf, isObjectType]
  have h := (hclaim (.mapV .string [("a", .stringV "x")]) ['a']).mpr
    ⟨_, _, .refl _ _, Or.inl hc⟩
  have heval : QueryCty (.mapV .string [("a", .stringV "x")]) ['a']
      = .error (.panics "AttributeTypes on non-object Type") := by
    simp [QueryCty, nextQuerySegment, cutDot, querySegmentPertainsToList,
      goAtoi, isDigitB, typeOf, isObjectType, isMapType, attributeTypes]
  rcases h with h | ⟨s, h⟩ <;> (rw [heval] at h; simp at h)

/-! ## C10 — absence of panics on safe inputs -/

theorem listValQ_ok_inv {vals : List CtyValue} {r : CtyValue}
    (h : listValQ vals = .ok r) :
    ∃ v0 rest, vals = v0 :: rest ∧ r = .listV (typeOf v0) vals := by
  rw [listValQ.eq_def] at h
  split at h
  · simp at h
  · rename_i v0 rest
    split at h
    · exact ⟨v0, rest, rfl, (Except.ok.inj h).symm⟩
    · simp at h

theorem safeList_mem {ty : CtyType} {elems : List CtyValue} {e : CtyValue}
    (h : SafeList ty elems = true) (hm : e ∈ elems) :
    typeOf e = ty ∧ SafeVal e = true := by
  induction elems with
  | nil => cases hm
  | cons v rest ih =>
    rw [SafeList.eq_def] at h
    simp only [Bool.and_eq_true] at h
    rcases List.mem_cons.mp hm with he | hm'
    · subst he
      exact ⟨(tyBEq_iff _ _).mp h.1.1, h.1.2⟩
    · exact ih h.2 hm'

theorem safeVal_list {ty : CtyType} {elems : List CtyValue}
    (h : SafeVal (.listV ty elems) = true) :
    elems ≠ [] ∧ ∀ e ∈ elems, typeOf e = ty ∧ SafeVal e = true := by
  rw [SafeVal.eq_def] at h
  simp only [Bool.and_eq_true] at h
  refine ⟨?_, fun e he => safeList_mem h.2 he⟩
  intro hnil
  subst hnil
  simp at h

theorem safeAttrs_lookup {attrs : List (String × CtyValue)} {k : String}
    {u : CtyValue} (h : SafeAttrs attrs = true)
    (hl : lookupAttr attrs k = some u) : SafeVal u = true := by
  induction attrs with
  | nil => simp [lookupAttr] at hl
  | cons p rest ih =>
    obtain ⟨k', v⟩ := p
    rw [SafeAttrs.eq_def] at h
    simp only [Bool.and_eq_true] at h
    by_cases hk : k' = k
    · simp [lookupAttr, hk] at hl
      exact hl ▸ h.1
    · simp [lookupAttr, hk] at hl
      exact ih h.2 hl

theorem safeVal_listType {v : CtyValue} (h : SafeVal v = true)
    (hl : isListType (typeOf v) = true) :
    ∃ ty elems, v = .listV ty elems := by
  cases v with
  | listV ty elems => exact ⟨ty, elems, rfl⟩
  | nullV ty =>
    rw [SafeVal.eq_def] at h
    cases ty <;> simp_all [typeOf, isListType, isScalarTy]
  | unknown ty =>
    rw [SafeVal.eq_def] at h
    cases ty <;> simp_all [typeOf, isListType, isScalarTy]
  | boolV b => simp [typeOf, isListType] at hl
  | number m => simp [typeOf, isListType] at hl
  | stringV s => simp [typeOf, isListType] at hl
  | object attrs => simp [typeOf, isListType] at hl
  | mapV t es => rw [SafeVal.eq_def] at h; simp at h

theorem safeVal_objType {v : CtyValue} (h : SafeVal v = true)
    (ho : isObjectType (typeOf v) = true ∨ isMapType (typeOf v) = true) :
    ∃ attrs, v = .object attrs := by
  cases v with
  | object attrs => exact ⟨attrs, rfl⟩
  | nullV ty =>
    rw [SafeVal.eq_def] at h
    cases ty <;> simp_all [typeOf, isObjectType, isMapType, isScalarTy]
  | unknown ty =>
    rw [SafeVal.eq_def] at h
    cases ty <;> simp_all [typeOf, isObjectType, isMapType, isScalarTy]
  | boolV b => simp [typeOf, isObjectType, isMapType] at ho
  | number m => simp [typeOf, isObjectType, isMapType] at ho
  | stringV s => simp [typeOf, isObjectType, isMapType] at ho
  | listV t es => simp [typeOf, isObjectType, isMapType] at ho
  | mapV t es => rw [SafeVal.eq_def] at h; simp at h

theorem SafeQuery_parts {q : List Char} (h : SafeQuery q = true) :
    segSafe (nextQuerySegment q).1 = true ∧
      ((nextQuerySegment q).2 = [] ∨ SafeQuery (nextQuerySegment q).2 = true) := by
  rw [SafeQuery.eq_def] at h
  simp only [Bool.and_eq_true] at h
  refine ⟨h.1, ?_⟩
  by_cases hrem : (nextQuerySegment q).2 = []
  · exact Or.inl hrem
  · right
    have h2 := h.2
    rw [dif_neg hrem] at h2
    exact h2

theorem segSafe_pertains {s : List Char} {i : Int} (hs : segSafe s = true)
    (hp : querySegmentPertainsToList s = (i, true)) : -1 ≤ i := by
  unfold querySegmentPertainsToList at hp
  by_cases hh : s = ['#']
  · rw [if_pos hh] at hp
    have : i = -1 := by
      have := (Prod.mk.injEq _ _ _ _).mp hp.symm
      exact this.1
    omega
  · rw [if_neg hh] at hp
    cases hg : goAtoi s with
    | none =>
      rw [hg] at hp
      simp at hp
    | some j =>
      rw [hg] at hp
      simp at hp
      unfold segSafe at hs
      rw [hg] at hs
      simp at hs
      omega

theorem typeQuery_list (et : CtyType) (q : List Char)
    (hp : (querySegmentPertainsToList (nextQuerySegment q).1).2 = true) :
    typeQuery (.list et) q =
      if (querySegmentPertainsToList (nextQuerySegment q).1).1 = -1 then
        if h : (nextQuerySegment q).2 = [] then some (.list et)
        else (typeQuery et (nextQuerySegment q).2).map CtyType.list
      else
        if h : (nextQuerySegment q).2 = [] then some et
        else typeQuery et (nextQuerySegment q).2 := by
  rw [typeQuery.eq_def, dif_pos hp]

theorem typeQuery_object_some (atys : List (String × CtyType)) (q : List Char)
    (t2 : CtyType)
    (hp : (querySegmentPertainsToList (nextQuerySegment q).1).2 = false)
    (hl : lookupAttr atys (String.mk (nextQuerySegment q).1) = some t2) :
    typeQuery (.object atys) q =
      if h : (nextQuerySegment q).2 = [] then some t2
      else typeQuery t2 (nextQuerySegment q).2 := by
  rw [typeQuery.eq_def, dif_neg (by simp [hp])]
  simp only [hl]

/-- On a safe value, the type of a successful evaluation is determined by
the input type and the query alone: this is what guarantees that the
element results collected by the wildcard branch share one type, so the
embedded `cty.ListVal` consistency panic cannot fire. -/
theorem typeQuery_det :
    ∀ n : Nat, ∀ q : List Char, ∀ v r : CtyValue, q.length < n →
      SafeVal v = true → QueryCty v q = .ok r →
      typeQuery (typeOf v) q = some (typeOf r) := by
  intro n
  induction n with
  | zero =>
    intro q v r h
    omega
  | succ n ih =>
    intro q v r hlen hs hok
    by_cases hp : (querySegmentPertainsToList (nextQuerySegment q).1).2 = true
    case pos =>
      have hunf : QueryCty v q = queryList v
          (querySegmentPertainsToList (nextQuerySegment q).1).1
          (nextQuerySegment q).1 (nextQuerySegment q).2 := by
        rw [QueryCty.eq_def, dif_pos hp]
      by_cases hlist : isListType (typeOf v) = true
      case neg =>
        have hlist' : isListType (typeOf v) = false := by
          cases hv : isListType (typeOf v)
          · rfl
          · exact absurd hv hlist
        rw [hunf, queryList_notList _ _ _ hlist'] at hok
        cases hok
      case pos =>
        obtain ⟨ty, elems, rfl⟩ := safeVal_listType hs hlist
        obtain ⟨hne, hmem⟩ := safeVal_list hs
        by_cases hwild :
          (querySegmentPertainsToList (nextQuerySegment q).1).1 = -1
        case pos =>
          by_cases hrem : (nextQuerySegment q).2 = []
          case pos =>
            rw [hunf, hwild, hrem,
              queryList_wild_ok _ (wildcardLoop_nil_rem elems),
              listValQ_ok ty elems hne (fun e he => (hmem e he).1)] at hok
            have hr : r = .listV ty elems := (Except.ok.inj hok).symm
            simp only [typeOf]
            rw [typeQuery_list ty q hp, if_pos hwild, dif_pos hrem, hr]
            simp [typeOf]
          case neg =>
            cases hloop : wildcardLoop elems (nextQuerySegment q).2 with
            | error e0 =>
              rw [hunf, hwild, queryList_wild_error _ hloop] at hok
              cases hok
            | ok rs =>
              rw [hunf, hwild, queryList_wild_ok _ hloop] at hok
              have hf2 := wildcardLoop_ok_forall2 hrem hloop
              have haux : ∀ (es rsx : List CtyValue),
                  List.Forall₂
                    (fun e rr => QueryCty e (nextQuerySegment q).2 = .ok rr)
                    es rsx →
                  (∀ e ∈ es, typeOf e = ty ∧ SafeVal e = true) →
                  ∀ ri ∈ rsx,
                    typeQuery ty (nextQuerySegment q).2 = some (typeOf ri) := by
                intro es rsx hff
                induction hff with
                | nil =>
                  intro hsafe ri hri
                  cases hri
                | cons hh ht ihh =>
                  intro hsafe ri hri
                  rcases List.mem_cons.mp hri with he | hm
                  · subst he
                    rename_i a l1 l2
                    have h1 := hsafe a (List.mem_cons_self a l1)
                    have h2 := ih (nextQuerySegment q).2 a ri
                      (by have := nqs_snd_lt_of_pertains hp; omega) h1.2 hh
                    rw [h1.1] at h2
                    exact h2
                  · exact ihh (fun e he => hsafe e (List.mem_cons_of_mem _ he))
                      ri hm
              cases rs with
              | nil =>
                cases elems with
                | nil => exact absurd rfl hne
                | cons e0 es' => cases hf2
              | cons r0 rs' =>
                have hty0 : typeQuery ty (nextQuerySegment q).2
                    = some (typeOf r0) :=
                  haux elems (r0 :: rs') hf2 hmem r0 (by simp)
                have hall : ∀ ri ∈ r0 :: rs', typeOf ri = typeOf r0 := by
                  intro ri hri
                  have := haux elems (r0 :: rs') hf2 hmem ri hri
                  rw [hty0] at this
                  exact (Option.some.inj this).symm
                rw [listValQ_ok (typeOf r0) (r0 :: rs') (by simp) hall] at hok
                have hr : r = .listV (typeOf r0) (r0 :: rs') :=
                  (Except.ok.inj hok).symm
                simp only [typeOf]
                rw [typeQuery_list ty q hp, if_pos hwild, dif_neg hrem,
                  hty0, hr]
                simp [typeOf]
        case neg =>
          by_cases hoob : (elems.length : Int)
              ≤ (querySegmentPertainsToList (nextQuerySegment q).1).1
          case pos =>
            rw [hunf, queryList_oob _ _ hwild hoob] at hok
            cases hok
          case neg =>
            by_cases hneg :
              (querySegmentPertainsToList (nextQuerySegment q).1).1 < 0
            case pos =>
              rw [hunf, queryList_negidx _ _ hwild hneg] at hok
              cases hok
            case neg =>
              have hidx :
                  ((querySegmentPertainsToList
                    (nextQuerySegment q).1).1).toNat < elems.length := by
                omega
              obtain ⟨u, hg⟩ : ∃ u,
                  elems.get?
                    ((querySegmentPertainsToList
                      (nextQuerySegment q).1).1).toNat = some u :=
                ⟨elems.get ⟨_, hidx⟩, List.get?_eq_get hidx⟩
              have hu := hmem u (List.get?_mem hg)
              rw [hunf,
                queryList_index _ _ hwild (by omega) (by omega) hg] at hok
              by_cases hrem : (nextQuerySegment q).2 = []
              case pos =>
                rw [if_pos hrem] at hok
                have hr : r = u := (Except.ok.inj hok).symm
                simp only [typeOf]
                rw [typeQuery_list ty q hp, if_neg hwild, dif_pos hrem,
                  hr, hu.1]
              case neg =>
                rw [if_neg hrem] at hok
                have h2 := ih (nextQuerySegment q).2 u r
                  (by have := nqs_snd_lt_of_pertains hp; omega) hu.2 hok
                simp only [typeOf]
                rw [typeQuery_list ty q hp, if_neg hwild, dif_neg hrem,
                  ← hu.1]
                exact h2
    case neg =>
      have hp' : (querySegmentPertainsToList (nextQuerySegment q).1).2
          = false := by
        cases hv : (querySegmentPertainsToList (nextQuerySegment q).1).2
        · rfl
        · exact absurd hv hp
      by_cases hobj : isObjectType (typeOf v) = true
          ∨ isMapType (typeOf v) = true
      case neg =>
        rw [QueryCty.eq_def, dif_neg (by simp [hp']), if_pos hobj] at hok
        cases hok
      case pos =>
        obtain ⟨attrs, rfl⟩ := safeVal_objType hs hobj
        cases hl : lookupAttr (attrsTypes attrs)
            (String.mk (nextQuerySegment q).1) with
        | none =>
          rw [QueryCty.eq_def, dif_neg (by simp [hp']),
            if_neg (not_not_intro hobj)] at hok
          simp only [typeOf, attributeTypes] at hok
          rw [hl] at hok
          cases hok
        | some t0 =>
          have hl2 : ∃ u, lookupAttr attrs (String.mk (nextQuerySegment q).1)
              = some u ∧ typeOf u = t0 := by
            rw [lookupAttr_attrsTypes] at hl
            cases hlv : lookupAttr attrs (String.mk (nextQuerySegment q).1) with
            | none =>
              rw [hlv] at hl
              simp at hl
            | some u =>
              rw [hlv] at hl
              simp at hl
              exact ⟨u, rfl, hl⟩
          obtain ⟨u, hlv, htu⟩ := hl2
          have hsu : SafeVal u = true :=
            safeAttrs_lookup (by rw [SafeVal.eq_def] at hs; exact hs) hlv
          rw [QueryCty.eq_def, dif_neg (by simp [hp']),
            if_neg (not_not_intro hobj)] at hok
          simp only [typeOf, attributeTypes] at hok
          rw [hl] at hok
          by_cases hrem : (nextQuerySegment q).2 = []
          case pos =>
            rw [dif_pos hrem] at hok
            simp only [getAttrGo, hlv] at hok
            have hr : r = u := (Except.ok.inj hok).symm
            simp only [typeOf]
            rw [typeQuery_object_some (attrsTypes attrs) q t0 hp' hl]
            rw [dif_pos hrem, hr, htu]
          case neg =>
            rw [dif_neg hrem] at hok
            simp only [getAttrGo, hlv] at hok
            have h2 := ih (nextQuerySegment q).2 u r
              (by have := nqs_snd_lt_of_ne hrem; omega) hsu hok
            simp only [typeOf]
            rw [typeQuery_object_some (attrsTypes attrs) q t0 hp' hl]
            rw [dif_neg hrem, ← htu]
            exact h2

/-- Fuel-indexed form of the no-panic result: on a safe value and a safe
query, no evaluation reaches any of the embedded library panics. -/
theorem queryCty_no_panic_aux :
    ∀ n : Nat, ∀ q : List Char, ∀ v : CtyValue, q.length < n →
      SafeVal v = true → SafeQuery q = true →
      ∀ m : String, QueryCty v q ≠ .error (.panics m) := by
  intro n
  induction n with
  | zero =>
    intro q v h
    omega
  | succ n ih =>
    intro q v hlen hs hsq m hcon
    obtain ⟨hseg, hrems⟩ := SafeQuery_parts hsq
    by_cases hp : (querySegmentPertainsToList (nextQuerySegment q).1).2 = true
    case pos =>
      have hunf : QueryCty v q = queryList v
          (querySegmentPertainsToList (nextQuerySegment q).1).1
          (nextQuerySegment q).1 (nextQuerySegment q).2 := by
        rw [QueryCty.eq_def, dif_pos hp]
      by_cases hlist : isListType (typeOf v) = true
      case neg =>
        have hlist' : isListType (typeOf v) = false := by
          cases hv : isListType (typeOf v)
          · rfl
          · exact absurd hv hlist
        rw [hunf, queryList_notList _ _ _ hlist'] at hcon
        simp at hcon
      case pos =>
        obtain ⟨ty, elems, rfl⟩ := safeVal_listType hs hlist
        obtain ⟨hne, hmem⟩ := safeVal_list hs
        by_cases hwild :
          (querySegmentPertainsToList (nextQuerySegment q).1).1 = -1
        case pos =>
          by_cases hrem : (nextQuerySegment q).2 = []
          case pos =>
            rw [hunf, hwild, hrem,
              queryList_wild_ok _ (wildcardLoop_nil_rem elems),
              listValQ_ok ty elems hne (fun e he => (hmem e he).1)] at hcon
            cases hcon
          case neg =>
            have hsq2 : SafeQuery (nextQuerySegment q).2 = true := by
              rcases hrems with h | h
              · exact absurd h hrem
              · exact h
            cases hloop : wildcardLoop elems (nextQuerySegment q).2 with
            | error e0 =>
              rw [hunf, hwild, queryList_wild_error _ hloop] at hcon
              obtain ⟨-, pre, u, post, heq, hpre, herr⟩ :=
                wildcardLoop_error_inv hloop
              have hu : SafeVal u = true := (hmem u (by simp [heq])).2
              have hqe : QueryCty u (nextQuerySegment q).2
                  = .error (.panics m) := by
                rw [herr, Except.error.inj hcon]
              exact ih (nextQuerySegment q).2 u
                (by have := nqs_snd_lt_of_pertains hp; omega) hu hsq2 m hqe
            | ok rs =>
              rw [hunf, hwild, queryList_wild_ok _ hloop] at hcon
              have hf2 := wildcardLoop_ok_forall2 hrem hloop
              cases rs with
              | nil =>
                cases elems with
                | nil => exact absurd rfl hne
                | cons e0 es' => cases hf2
              | cons r0 rs' =>
                have haux : ∀ (es rsx : List CtyValue),
                    List.Forall₂
                      (fun e rr => QueryCty e (nextQuerySegment q).2 = .ok rr)
                      es rsx →
                    (∀ e ∈ es, typeOf e = ty ∧ SafeVal e = true) →
                    ∀ ri ∈ rsx,
                      typeQuery ty (nextQuerySegment q).2
                        = some (typeOf ri) := by
                  intro es rsx hff
                  induction hff with
                  | nil =>
                    intro hsafe ri hri
                    cases hri
                  | cons hh ht ihh =>
                    intro hsafe ri hri
                    rcases List.mem_cons.mp hri with he | hm
                    · subst he
                      rename_i a l1 l2
                      have h1 := hsafe a (List.mem_cons_self a l1)
                      have h2 := typeQuery_det
                        ((nextQuerySegment q).2.length + 1)
                        (nextQuerySegment q).2 a ri (by omega) h1.2 hh
                      rw [h1.1] at h2
                      exact h2
                    · exact ihh
                        (fun e he => hsafe e (List.mem_cons_of_mem _ he)) ri hm
                have hty0 := haux elems (r0 :: rs') hf2 hmem r0 (by simp)
                have hall : ∀ ri ∈ r0 :: rs', typeOf ri = typeOf r0 := by
                  intro ri hri
                  have := haux elems (r0 :: rs') hf2 hmem ri hri
                  rw [hty0] at this
                  exact (Option.some.inj this).symm
                rw [listValQ_ok (typeOf r0) (r0 :: rs') (by simp) hall] at hcon
                cases hcon
        case neg =>
          have hge0 : 0 ≤ (querySegmentPertainsToList
              (nextQuerySegment q).1).1 := by
            have hpair : querySegmentPertainsToList (nextQuerySegment q).1
                = ((querySegmentPertainsToList (nextQuerySegment q).1).1,
                    true) := by
              rw [← hp]
            have := segSafe_pertains hseg hpair
            omega
          by_cases hoob : (elems.length : Int)
              ≤ (querySegmentPertainsToList (nextQuerySegment q).1).1
          case pos =>
            rw [hunf, queryList_oob _ _ hwild hoob] at hcon
            simp at hcon
          case neg =>
            have hidx : ((querySegmentPertainsToList
                (nextQuerySegment q).1).1).toNat < elems.length := by
              omega
            obtain ⟨u, hg⟩ : ∃ u,
                elems.get? ((querySegmentPertainsToList
                  (nextQuerySegment q).1).1).toNat = some u :=
              ⟨elems.get ⟨_, hidx⟩, List.get?_eq_get hidx⟩
            have hu := hmem u (List.get?_mem hg)
            rw [hunf, queryList_index _ _ hwild hge0 (by omega) hg] at hcon
            by_cases hrem : (nextQuerySegment q).2 = []
            case pos =>
              rw [if_pos hrem] at hcon
              cases hcon
            case neg =>
              rw [if_neg hrem] at hcon
              have hsq2 : SafeQuery (nextQuerySegment q).2 = true := by
                rcases hrems with h | h
                · exact absurd h hrem
                · exact h
              exact ih (nextQuerySegment q).2 u
                (by have := nqs_snd_lt_of_pertains hp; omega) hu.2 hsq2 m hcon
    case neg =>
      by_cases hobj : isObjectType (typeOf v) = true
          ∨ isMapType (typeOf v) = true
      case neg =>
        rw [QueryCty.eq_def, dif_neg hp, if_pos hobj] at hcon
        simp at hcon
      case pos =>
        obtain ⟨attrs, rfl⟩ := safeVal_objType hs hobj
        rw [QueryCty.eq_def, dif_neg hp, if_neg (not_not_intro hobj)] at hcon
        simp only [typeOf, attributeTypes] at hcon
        cases hl : lookupAttr (attrsTypes attrs)
            (String.mk (nextQuerySegment q).1) with
        | none =>
          rw [hl] at hcon
          simp at hcon
        | some t0 =>
          have hl2 : ∃ u, lookupAttr attrs (String.mk (nextQuerySegment q).1)
              = some u ∧ typeOf u = t0 := by
            rw [lookupAttr_attrsTypes] at hl
            cases hlv : lookupAttr attrs (String.mk (nextQuerySegment q).1) with
            | none =>
              rw [hlv] at hl
              simp at hl
            | some u =>
              rw [hlv] at hl
              simp at hl
              exact ⟨u, rfl, hl⟩
          obtain ⟨u, hlv, htu⟩ := hl2
          have hsu : SafeVal u = true :=
            safeAttrs_lookup (by rw [SafeVal.eq_def] at hs; exact hs) hlv
          rw [hl] at hcon
          by_cases hrem : (nextQuerySegment q).2 = []
          case pos =>
            rw [dif_pos hrem] at hcon
            simp only [getAttrGo, hlv] at hcon
            cases hcon
          case neg =>
            rw [dif_neg hrem] at hcon
            simp only [getAttrGo, hlv] at hcon
            have hsq2 : SafeQuery (nextQuerySegment q).2 = true := by
              rcases hrems with h | h
              · exact absurd h hrem
              · exact h
            exact ih (nextQuerySegment q).2 u
              (by have := nqs_snd_lt_of_ne hrem; omega) hsu hsq2 m hcon

/-- C10 counterexample: the claim's own inclusions fail.  A map-kind value
under a field segment panics inside `AttributeTypes` (the object-or-map
guard admits maps, but `cty.Type.AttributeTypes` supports only object
types), and an empty list under a wildcard panics inside `cty.ListVal`
(called on an empty slice), so `QueryCty` is not total at its public
interface. -/
theorem c10_counterexample :
    QueryCty (.mapV .string [("a", .stringV "x")]) ['a']
      = .error (.panics "AttributeTypes on non-object Type") ∧
    QueryCty (.listV .string []) ['#']
      = .error (.panics "must not call ListVal with empty slice") := by
  constructor
  · simp [QueryCty, queryList, wildcardLoop, nextQuerySegment, cutDot,
      querySegmentPertainsToList, goAtoi, isDigitB, digitsVal, typeOf,
      isObjectType, isMapType, isListType, attributeTypes, attrsTypes,
      lookupAttr, getAttrGo, listValQ] <;> rfl
  · simp [QueryCty, queryList, wildcardLoop, nextQuerySegment, cutDot,
      querySegmentPertainsToList, goAtoi, isDigitB, digitsVal, typeOf,
      isObjectType, isMapType, isListType, attributeTypes, attrsTypes,
      lookupAttr, getAttrGo, listValQ] <;> rfl

/-- C10 amended: `QueryCty` is total (returns a value or a regular error,
never aborting in a helper panic) only on safe inputs: values containing
no map kinds, no empty and no inconsistently-typed lists, and no null or
unknown values of non-scalar type, paired with queries none of whose
segments parses as an integer below -1.  Outside that domain the helper
operations the claim lists do panic (see the counterexample). -/
theorem c10_no_panic_on_safe_inputs (v : CtyValue) (q : List Char)
    (hs : SafeVal v = true) (hq : SafeQuery q = true) :
    ∀ m : String, QueryCty v q ≠ .error (.panics m) :=
  queryCty_no_panic_aux (q.length + 1) q v (by omega) hs hq

theorem c10_no_panic_on_safe_inputs_witness :
    (SafeVal (.object [("a", .stringV "x")]) = true ∧
      SafeQuery ['a'] = true) ∧
    ∀ m : String,
      QueryCty (.object [("a", .stringV "x")]) ['a']
        ≠ .error (.panics m) := by
  have h1 : SafeVal (.object [("a", .stringV "x")]) = true := by decide
  have h2 : SafeQuery ['a'] = true := by
    rw [SafeQuery.eq_def]
    simp [nextQuerySegment, cutDot, segSafe, goAtoi, isDigitB, digitsVal]
  exact ⟨⟨h1, h2⟩,
    c10_no_panic_on_safe_inputs (.object [("a", .stringV "x")]) ['a'] h1 h2⟩
